import Mathlib

/-!
Verification development for the `static-dominator` transpiler.

The development shallowly embeds the two emitters of the repository:

* the HTML tree formatter (`src/lib.rs`): tree normalization
  (`trim_non_el_text`, `trim_insignificant`), the node visibility filter
  (`filter_node_text`), the recursive formatter (`format_node`) and the
  top-level emission (`StaticDom::as_html`), together with the build-script
  driver (`process_dir`);
* the Markdown streaming formatter (`src/markdown.rs`): the per-event
  emission (`fmt_event`, `fmt_start_event`, `fmt_end_event`) with its
  mutable indent counter.

Trees are modelled as a mutually inductive rose tree (`HTree`/`HForest`) so
that every function is structurally recursive and evaluates inside the
kernel.  Strings are Lean `String`s, but the string primitives the Rust code
uses (`split`, `trim`, `lines`, `splitn`, `escape_debug`) are implemented
here over the underlying character lists so that they, too, reduce; they
model the Rust primitives restricted to ASCII whitespace/printability,
which covers every input appearing in the theorems below.

Fallible emission is modelled with `Except FmtErr`: Rust `assert!`/`panic!`
(process aborts) and `fmt::Error` returns are both fatal, output-discarding
conditions, distinguished by the error kind.
-/

/-- Decidable equality of `Except` results, for evaluating the emitters on
concrete inputs. -/
instance {ε α : Type} [DecidableEq ε] [DecidableEq α] : DecidableEq (Except ε α) := fun x y =>
  match x, y with
  | .ok a, .ok b =>
    if h : a = b then .isTrue (by rw [h]) else .isFalse fun hh => h (Except.ok.inj hh)
  | .error a, .error b =>
    if h : a = b then .isTrue (by rw [h]) else .isFalse fun hh => h (Except.error.inj hh)
  | .ok _, .error _ => .isFalse fun hh => Except.noConfusion hh
  | .error _, .ok _ => .isFalse fun hh => Except.noConfusion hh

/-! ## String primitives (models of the Rust `str` methods used) -/

/-- Splitting a character list at every occurrence of `sep`, keeping empty
segments, as Rust's `str::split` does for a one-character pattern. -/
def chSplit (sep : Char) : List Char → List (List Char)
  | [] => [[]]
  | c :: rest =>
    match chSplit sep rest with
    | [] => [[]]
    | r :: rs => if c = sep then [] :: r :: rs else (c :: r) :: rs

/-- Rust `str::split` with a one-character pattern (total, keeps empties). -/
def rsplit (sep : Char) (s : String) : List String :=
  (chSplit sep s.data).map fun l => ⟨l⟩

/-- ASCII whitespace, modelling the characters Rust's `str::trim` removes
on the inputs considered here. -/
def isWs (c : Char) : Bool :=
  c = ' ' || c = '\t' || c = '\n' || c = '\r'

/-- Model of Rust `str::trim` (ASCII whitespace). -/
def rtrim (s : String) : String :=
  ⟨((s.data.dropWhile isWs).reverse.dropWhile isWs).reverse⟩

/-- Join a list of strings with a separator (Rust's rejoining of the tail in
`splitn`). -/
def rintercalate (sep : String) : List String → String
  | [] => ""
  | [s] => s
  | s :: rest => s ++ sep ++ rintercalate sep rest

/-- Rust `str::splitn(2, sep)` followed by the two `next()` calls of
`format_node`'s style loop: `none` when the separator does not occur,
otherwise the part before the first `sep` and everything after it. -/
def splitFirst (sep : Char) (s : String) : Option (String × String) :=
  match rsplit sep s with
  | [] => none
  | [_] => none
  | a :: rest => some (a, rintercalate (String.singleton sep) rest)

/-- Drop a final empty segment (Rust `str::lines` ignores a trailing
newline). -/
def dropLastEmpty : List (List Char) → List (List Char)
  | [] => []
  | [l] => if l = [] then [] else [l]
  | l :: rest => l :: dropLastEmpty rest

/-- Strip one trailing carriage return from a line, as Rust `str::lines`
does. -/
def stripCR (l : List Char) : List Char :=
  match l.getLast? with
  | some c => if c = '\r' then l.dropLast else l
  | none => l

/-- Model of Rust `str::lines`. -/
def rlines (s : String) : List String :=
  ((dropLastEmpty (chSplit '\n' s.data)).map stripCR).map fun l => ⟨l⟩

/-- One hexadecimal digit (lowercase), for `\u{...}` escapes. -/
def hexDigit (n : Nat) : Char :=
  if n < 10 then Char.ofNat (48 + n) else Char.ofNat (87 + n)

/-- Hexadecimal digits of `n` (fuel-based so that it reduces; 8 digits cover
every Unicode scalar value). -/
def hexRepAux : Nat → Nat → List Char
  | 0, _ => []
  | fuel + 1, n => if n = 0 then [] else hexRepAux fuel (n / 16) ++ [hexDigit (n % 16)]

/-- Hexadecimal representation of `n`. -/
def hexRep (n : Nat) : List Char :=
  if n = 0 then ['0'] else hexRepAux 8 n

/-- Model of Rust `char::escape_debug` (exact on the ASCII range; non-ASCII
printable characters are kept as themselves, which matches Rust except for
its grapheme-dependent treatment of combining marks, not exercised here). -/
def escapeDebugChar (c : Char) : List Char :=
  if c = '\t' then ['\\', 't']
  else if c = '\n' then ['\\', 'n']
  else if c = '\r' then ['\\', 'r']
  else if c = '\\' then ['\\', '\\']
  else if c = Char.ofNat 39 then ['\\', Char.ofNat 39]
  else if c = '"' then ['\\', '"']
  else if c.val < 32 || c.val = 127 then
    '\\' :: 'u' :: Char.ofNat 123 :: (hexRep c.toNat ++ [Char.ofNat 125])
  else [c]

/-- Model of Rust `str::escape_debug`. -/
def escape_debug (s : String) : String :=
  ⟨(s.data.map escapeDebugChar).flatten⟩

/-! ## Data model: the Parsed Document tree

`scraper`'s `Node` value and the `ego_tree` arena tree, flattened into an
owned rose tree.  Node ids model `ego_tree::NodeId` (used by the
detach-by-id normalization passes). -/

/-- `html5ever` qualified name: an optional namespace prefix and the local
name. -/
structure QName where
  pfx : Option String
  localName : String
deriving DecidableEq

/-- `scraper::Node`, restricted to the data the emitter reads. -/
inductive NodeVal where
  | document
  | fragment
  | doctype (s : String)
  | comment (s : String)
  | procInst (s : String)
  | text (s : String)
  | element (name : QName) (classes : List String) (attrs : List (QName × String))
deriving DecidableEq

mutual
inductive HTree where
  | mk (id : Nat) (val : NodeVal) (children : HForest)
inductive HForest where
  | nil
  | cons (hd : HTree) (tl : HForest)
end

/-- The node's `ego_tree` id. -/
def HTree.id : HTree → Nat
  | .mk i _ _ => i

/-- The node's value. -/
def HTree.val : HTree → NodeVal
  | .mk _ v _ => v

/-- The node's ordered children. -/
def HTree.children : HTree → HForest
  | .mk _ _ cs => cs

/-- The children as a plain list. -/
def HForest.toList : HForest → List HTree
  | .nil => []
  | .cons c rest => c :: rest.toList

/-- Number of children (`node.children().count()`). -/
def HForest.length : HForest → Nat
  | .nil => 0
  | .cons _ rest => rest.length + 1

/-- Is the forest empty? -/
def isNilF : HForest → Bool
  | .nil => true
  | .cons _ _ => false

/-- `node.first_child()`. -/
def firstChild : HForest → Option HTree
  | .nil => none
  | .cons c _ => some c

/-- `node.last_child()`. -/
def lastChild : HForest → Option HTree
  | .nil => none
  | .cons c .nil => some c
  | .cons _ (.cons d rest) => lastChild (.cons d rest)

/-! ## The HTML formatter (`src/lib.rs`) -/

/-- Fatal emission conditions.  `nsTag`, `nsAttr`, `escapeNotText` and
`unexpectedNode` model `assert!`/`panic!`/`unreachable!` aborts,
`styleNoColon` models the `fmt::Error` return of the style loop,
`parseErr` the propagated parser errors and `badRoot` the root-shape
assertions of `get_html`. -/
inductive FmtErr where
  | nsTag
  | nsAttr
  | escapeNotText
  | styleNoColon
  | unexpectedNode
  | parseErr
  | badRoot
deriving DecidableEq

/-- `filter_node_text`: the node visibility filter.  Elements are always
visible, text is visible iff (trimmed, when `trim` is set) non-empty, any
other node is logged and invisible. -/
def filter_node_text (el : HTree) (trim : Bool) : Bool :=
  match el.val with
  | .element .. => true
  | .text txt => if trim then !(rtrim txt == "") else !(txt == "")
  | _ => false

/-- `is_escape`: an element whose local tag name is `escape`. -/
def is_escape (node : HTree) : Bool :=
  match node.val with
  | .element name _ _ => name.localName == "escape"
  | _ => false

/-- The children surviving the visibility filter, in order
(`children().filter(|t| filter_node_text(t, trim))` collected). -/
def visibleF : HForest → Bool → List HTree
  | .nil, _ => []
  | .cons c rest, trim =>
    if filter_node_text c trim then c :: visibleF rest trim else visibleF rest trim

/-- `children().filter(..).count()`. -/
def countVisible (f : HForest) (trim : Bool) : Nat :=
  (visibleF f trim).length

/-- `iter.peek().is_some()` on the filtered iterator: is there a later
visible sibling? -/
def hasVisible (f : HForest) (trim : Bool) : Bool :=
  !(visibleF f trim).isEmpty

/-- `Indenter::writeln`: two spaces per indent level. -/
def indentStr : Nat → String
  | 0 => ""
  | n + 1 => "  " ++ indentStr n

/-- One emitted line at indent `ind`. -/
def wline (ind : Nat) (s : String) : String :=
  indentStr ind ++ s ++ "\n"

/-- The class clause of `format_node`: nothing, a single-class call, or a
list call (note the trailing `", "` after every class, as the Rust loop
writes it). -/
def classClause (ind : Nat) : List String → String
  | [] => ""
  | [c] => wline ind (".class(\"" ++ escape_debug c ++ "\")")
  | cs =>
    wline ind (".class([" ++ String.join (cs.map fun c => "\"" ++ escape_debug c ++ "\", ") ++ "])")

/-- The style loop of `format_node`, over the `;`-split segments: trim each
segment, skip empties, split at the first `:` (no colon is a fatal
`fmt::Error`), emit one `.style` line per pair.  (The Rust loop writes
lines as it goes; on error the whole emission is discarded, so the
all-or-nothing `Except` result is observably the same.) -/
def styleSegs (ind : Nat) : List String → Except FmtErr String
  | [] => .ok ""
  | seg :: rest =>
    if rtrim seg == "" then styleSegs ind rest
    else
      match splitFirst ':' (rtrim seg) with
      | none => .error .styleNoColon
      | some (n, v) =>
        match styleSegs ind rest with
        | .error e => .error e
        | .ok r =>
          .ok (wline ind (".style(\"" ++ escape_debug n ++ "\", \"" ++ escape_debug v ++ "\")") ++ r)

/-- The style clause for a whole `style` attribute value. -/
def styleClause (ind : Nat) (s : String) : Except FmtErr String :=
  styleSegs ind (rsplit ';' s)

/-- The property/value pairs the style loop extracts, in source order
(specification companion to `styleSegs`, used to state ordering). -/
def stylePairsSegs : List String → Except FmtErr (List (String × String))
  | [] => .ok []
  | seg :: rest =>
    if rtrim seg == "" then stylePairsSegs rest
    else
      match splitFirst ':' (rtrim seg) with
      | none => .error .styleNoColon
      | some p =>
        match stylePairsSegs rest with
        | .error e => .error e
        | .ok ps => .ok (p :: ps)

/-- The property/value pairs of a `style` attribute value. -/
def stylePairs (s : String) : Except FmtErr (List (String × String)) :=
  stylePairsSegs (rsplit ';' s)

/-- The generic attribute loop of `format_node` (already filtered to
non-`style`/non-`class` attributes): a namespace prefix is a fatal
`assert!`, otherwise one `.attr` line each, in source order. -/
def attrsClause (ind : Nat) : List (QName × String) → Except FmtErr String
  | [] => .ok ""
  | (n, v) :: rest =>
    if n.pfx.isSome then .error .nsAttr
    else
      match attrsClause ind rest with
      | .error e => .error e
      | .ok r =>
        .ok (wline ind (".attr(\"" ++ escape_debug n.localName ++ "\", \"" ++ escape_debug v ++ "\")") ++ r)

/-- The escape hatch of `format_node`: take the first child (`unwrap` on an
empty list panics), require it to be a text node (anything else panics),
and copy its raw content line by line with plain `writeln!` — no indent
prefix, no escaping, ignoring the trailing comma and the trim flag. -/
def escapeEmit : HForest → Except FmtErr String
  | .nil => .error .escapeNotText
  | .cons c _ =>
    match c.val with
    | .text txt => .ok (String.join ((rlines txt).map fun l => l ++ "\n"))
    | _ => .error .escapeNotText

/-- The `.child( ... )` wrapper of the single-child branch. -/
def wrapChild (ind : Nat) : Except FmtErr String → Except FmtErr String
  | .error e => .error e
  | .ok inner => .ok (wline (ind + 1) ".child(" ++ inner ++ wline (ind + 1) ")")

/-- The `.children(&mut [ ... ])` wrapper of the children-list branch. -/
def wrapChildren (ind : Nat) : Except FmtErr String → Except FmtErr String
  | .error e => .error e
  | .ok inner => .ok (wline (ind + 1) ".children(&mut [" ++ inner ++ wline (ind + 1) "])")

/-- Everything `format_node` emits for an element apart from the children
clause (passed in as `childPart`): the opening `::dominator::html!` line,
the class clause, the style clause of the first `style` attribute, and the
generic attribute lines, then the closing `})` with the trailing comma.
Errors fire in the source's order: style before attributes before
children. -/
def el_open_close (name : QName) (classes : List String) (attrs : List (QName × String))
    (childPart : Except FmtErr String) (ind : Nat) (tc : String) : Except FmtErr String :=
  let openL := wline ind ("::dominator::html!(\"" ++ escape_debug name.localName ++ "\", \x7b")
  let classL := classClause (ind + 1) classes
  match (match attrs.find? fun a => a.1.localName == "style" with
         | none => Except.ok ""
         | some a => styleClause (ind + 1) a.2) with
  | .error e => .error e
  | .ok styleL =>
    match attrsClause (ind + 1)
        (attrs.filter fun a => !(a.1.localName == "style") && !(a.1.localName == "class")) with
    | .error e => .error e
    | .ok attrL =>
      match childPart with
      | .error e => .error e
      | .ok childL =>
        .ok (openL ++ classL ++ styleL ++ attrL ++ childL ++ wline ind ("\x7d)" ++ tc))

mutual
/-- `format_node`: recursive formatting of one node.  For an element: the
namespace-prefix assertion, the `escape` hatch, then `el_open_close` with
the children clause (`format_children`).  A text node emits one
`::dominator::text` line when (trimmed, if `trim`) non-empty; any other
node is `unreachable!`. -/
def format_node : HTree → Nat → Bool → Bool → Except FmtErr String
  | .mk _ v cs, ind, trail_comma, trim =>
    let tc : String := if trail_comma then "," else ""
    match v with
    | .element name classes attrs =>
      if name.pfx.isSome then .error .nsTag
      else if name.localName == "escape" then escapeEmit cs
      else el_open_close name classes attrs (format_children cs ind trim) ind tc
    | .text txt =>
      let txt := if trim then rtrim txt else txt
      if txt == "" then .ok ""
      else .ok (wline ind ("::dominator::text(\"" ++ escape_debug txt ++ "\")" ++ tc))
    | _ => .error .unexpectedNode

/-- The children clause of `format_node`.  It branches on the RAW child
count (`node.children().count()`): zero children emit nothing; exactly one
child that is not an `escape` element is wrapped in `.child( ... )`
(unfiltered); otherwise the visible children are emitted inside
`.children(&mut [ ... ])` by the filtered sibling loop.  (The first loop
iteration is written out inline so the recursion is structural;
`format_children_eq` below restates this definition in terms of
`format_sib`.) -/
def format_children : HForest → Nat → Bool → Except FmtErr String
  | .nil, _, _ => .ok ""
  | .cons c rest, ind, trim =>
    if isNilF rest then
      if is_escape c then
        wrapChildren ind
          (if filter_node_text c trim then
            match format_node c (ind + 2) false trim with
            | .error e => .error e
            | .ok s => .ok (s ++ "")
          else .ok "")
      else wrapChild ind (format_node c (ind + 2) false trim)
    else
      wrapChildren ind
        (if filter_node_text c trim then
          match format_node c (ind + 2) (hasVisible rest trim) trim with
          | .error e => .error e
          | .ok s =>
            match format_sib rest (ind + 2) trim with
            | .error e => .error e
            | .ok r => .ok (s ++ r)
        else format_sib rest (ind + 2) trim)

/-- The `while let Some(child) = iter.next()` loop over the filtered,
peekable child iterator: skip invisible nodes, format each visible one with
the has-more flag of the remaining visible siblings. -/
def format_sib : HForest → Nat → Bool → Except FmtErr String
  | .nil, _, _ => .ok ""
  | .cons c rest, ind, trim =>
    if filter_node_text c trim then
      match format_node c ind (hasVisible rest trim) trim with
      | .error e => .error e
      | .ok s =>
        match format_sib rest ind trim with
        | .error e => .error e
        | .ok r => .ok (s ++ r)
    else format_sib rest ind trim
end

mutual
/-- Specification variant of `format_node`, following the spec's words for
the children clause (claim C1): the clause is chosen by the number of
children SURVIVING the visibility filter — zero survivors emit no clause,
exactly one non-`escape` survivor is wrapped in `.child( ... )`, otherwise
(one `escape` survivor, or two or more survivors) the survivors are emitted
inside `.children(&mut [ ... ])`.  Identical to `format_node` everywhere
else. -/
def format_node_spec : HTree → Nat → Bool → Bool → Except FmtErr String
  | .mk _ v cs, ind, trail_comma, trim =>
    let tc : String := if trail_comma then "," else ""
    match v with
    | .element name classes attrs =>
      if name.pfx.isSome then .error .nsTag
      else if name.localName == "escape" then escapeEmit cs
      else el_open_close name classes attrs (format_children_spec cs ind trim) ind tc
    | .text txt =>
      let txt := if trim then rtrim txt else txt
      if txt == "" then .ok ""
      else .ok (wline ind ("::dominator::text(\"" ++ escape_debug txt ++ "\")" ++ tc))
    | _ => .error .unexpectedNode

/-- Children clause of the specification variant, chosen by the survivor
count.  (First loop iterations inlined for structural recursion;
`format_children_spec_eq` below restates it.) -/
def format_children_spec : HForest → Nat → Bool → Except FmtErr String
  | .nil, _, _ => .ok ""
  | .cons c rest, ind, trim =>
    match countVisible (HForest.cons c rest) trim with
    | 0 => .ok ""
    | 1 =>
      if filter_node_text c trim then
        if is_escape c then wrapChildren ind (format_node_spec c (ind + 2) false trim)
        else wrapChild ind (format_node_spec c (ind + 2) false trim)
      else single_spec rest ind trim
    | _ + 2 =>
      wrapChildren ind
        (if filter_node_text c trim then
          match format_node_spec c (ind + 2) (hasVisible rest trim) trim with
          | .error e => .error e
          | .ok s =>
            match format_sib_spec rest (ind + 2) trim with
            | .error e => .error e
            | .ok r => .ok (s ++ r)
        else format_sib_spec rest (ind + 2) trim)

/-- The exactly-one-survivor case of the specification variant: find the
survivor; a non-`escape` survivor is wrapped in `.child( ... )`, an
`escape` survivor in `.children(&mut [ ... ])`. -/
def single_spec : HForest → Nat → Bool → Except FmtErr String
  | .nil, _, _ => .ok ""
  | .cons c rest, ind, trim =>
    if filter_node_text c trim then
      if is_escape c then wrapChildren ind (format_node_spec c (ind + 2) false trim)
      else wrapChild ind (format_node_spec c (ind + 2) false trim)
    else single_spec rest ind trim

/-- Sibling loop of the specification variant. -/
def format_sib_spec : HForest → Nat → Bool → Except FmtErr String
  | .nil, _, _ => .ok ""
  | .cons c rest, ind, trim =>
    if filter_node_text c trim then
      match format_node_spec c ind (hasVisible rest trim) trim with
      | .error e => .error e
      | .ok s =>
        match format_sib_spec rest ind trim with
        | .error e => .error e
        | .ok r => .ok (s ++ r)
    else format_sib_spec rest ind trim
end

/-- The filtered sibling loop re-expressed over the list of visible
children (for stating `as_html`'s structure). -/
def sibGo : List HTree → Nat → Bool → Except FmtErr String
  | [], _, _ => .ok ""
  | [c], ind, trim => format_node c ind false trim
  | c :: c2 :: rest, ind, trim =>
    match format_node c ind true trim with
    | .error e => .error e
    | .ok s =>
      match sibGo (c2 :: rest) ind trim with
      | .error e => .error e
      | .ok r => .ok (s ++ r)

/-- `StaticDom`: the parsed, normalized tree plus the trim flag. -/
structure StaticDom where
  inner : HTree
  trim : Bool

/-- `get_html`: the root must be the synthetic `Fragment` with exactly one
child (both `assert!`ed in the source). -/
def get_html (t : HTree) : Option HTree :=
  match t with
  | .mk _ .fragment (.cons h .nil) => some h
  | _ => none

/-- `StaticDom::as_html`: count the root's visible children; emit them with
the sibling loop at indent 0; wrap in `[` ... `]` iff more than one is
visible. -/
def as_html (d : StaticDom) : Except FmtErr String :=
  match get_html d.inner with
  | none => .error .badRoot
  | some h =>
    let len := countVisible h.children d.trim
    match format_sib h.children 0 d.trim with
    | .error e => .error e
    | .ok body => .ok ((if len > 1 then "[" else "") ++ body ++ (if len > 1 then "]" else ""))

/-! ## Tree normalization (`trim_non_el_text`, `trim_insignificant`)

Both passes collect the `NodeId`s to remove into a `HashSet` and then
detach them one by one in the set's (unspecified) iteration order.
`collect1`/`collect2` model the collection phases (in depth-first order;
claim C10 shows the order is irrelevant), `detachOne`/`detachList` the
detach loop, and `detachMany` the order-free simultaneous removal used to
reason about them. -/

mutual
/-- Pass 1 collection (`trim_non_el_text`'s `inner`): visit the node's
children; recurse into element children, keep text children, record any
other child's id. -/
def collect1 : HTree → List Nat
  | .mk _ _ cs => collect1F cs
/-- Forest part of `collect1`. -/
def collect1F : HForest → List Nat
  | .nil => []
  | .cons c rest =>
    (match c.val with
     | .element .. => collect1 c
     | .text _ => []
     | _ => [c.id]) ++ collect1F rest
end

mutual
/-- `ego_tree` detach of the node with id `i`: remove it (with its subtree)
wherever it occurs. -/
def detachOne (i : Nat) : HTree → HTree
  | .mk j v cs => .mk j v (detachOneF i cs)
/-- Forest part of `detachOne`. -/
def detachOneF (i : Nat) : HForest → HForest
  | .nil => .nil
  | .cons c rest =>
    if c.id == i then detachOneF i rest
    else .cons (detachOne i c) (detachOneF i rest)
end

/-- The detach loop `for id in ids.iter() { ... detach() }`, in the order
given by `ids`. -/
def detachList (ids : List Nat) (t : HTree) : HTree :=
  ids.foldl (fun acc i => detachOne i acc) t

mutual
/-- Simultaneous removal of every node whose id is in `ids` (order-free
companion of `detachList`). -/
def detachMany (ids : List Nat) : HTree → HTree
  | .mk j v cs => .mk j v (detachManyF ids cs)
/-- Forest part of `detachMany`. -/
def detachManyF (ids : List Nat) : HForest → HForest
  | .nil => .nil
  | .cons c rest =>
    if ids.contains c.id then detachManyF ids rest
    else .cons (detachMany ids c) (detachManyF ids rest)
end

/-- Pass 2 edge check on one first/last child: an edge text child whose
trimmed content is empty is recorded; an element child is fine; anything
else is `unreachable!` (modelled as `none`). -/
def edge2 (c : HTree) : Option (List Nat) :=
  match c.val with
  | .text txt => some (if rtrim txt == "" then [c.id] else [])
  | .element .. => some []
  | _ => none

mutual
/-- Pass 2 collection (`trim_insignificant`'s `inner`): examine the first
and the last child, then recurse into every child.  `none` models the
`unreachable!` panic on a non-element/non-text edge child. -/
def collect2 : HTree → Option (List Nat)
  | .mk _ _ cs =>
    match (match firstChild cs with
           | none => some []
           | some c => edge2 c) with
    | none => none
    | some a =>
      match (match lastChild cs with
             | none => some []
             | some c => edge2 c) with
      | none => none
      | some b =>
        match collect2F cs with
        | none => none
        | some r => some (a ++ b ++ r)
/-- Forest part of `collect2` (the `for child in node.children()`
recursion). -/
def collect2F : HForest → Option (List Nat)
  | .nil => some []
  | .cons c rest =>
    match collect2 c with
    | none => none
    | some x =>
      match collect2F rest with
      | none => none
      | some y => some (x ++ y)
end

/-! ## The pipeline (`StaticDom::from_str`) and the driver (`process_dir`) -/

/-- The output of the external HTML parser (`Html::parse_fragment`): its
error list and the parsed tree. -/
structure ParsedHtml where
  errors : List String
  tree : HTree

/-- `StaticDom::from_str` after parsing: propagate parser errors, then run
pass 1 and pass 2 (collection in canonical depth-first order; claim C10
shows any other order yields the same tree). -/
def from_str (p : ParsedHtml) (trim : Bool) : Except FmtErr StaticDom :=
  if !p.errors.isEmpty then .error .parseErr
  else
    match get_html p.tree with
    | none => .error .badRoot
    | some h =>
      let t1 := detachList (collect1 h) p.tree
      match get_html t1 with
      | none => .error .badRoot
      | some h1 =>
        match collect2 h1 with
        | none => .error .unexpectedNode
        | some ids2 => .ok ⟨detachList ids2 t1, trim⟩

/-- `from_str` followed by `as_html`, with the two `HashSet` iteration
orders of the detach loops made explicit parameters (claim C10). -/
def runWith (p : ParsedHtml) (trim : Bool) (o1 o2 : List Nat) : Except FmtErr String :=
  if !p.errors.isEmpty then .error .parseErr
  else
    match get_html p.tree with
    | none => .error .badRoot
    | some _ =>
      let t1 := detachList o1 p.tree
      match get_html t1 with
      | none => .error .badRoot
      | some h1 =>
        match collect2 h1 with
        | none => .error .unexpectedNode
        | some _ => as_html ⟨detachList o2 t1, trim⟩

/-- A directory entry seen by `process_dir`.  The file's extension models
`Path::extension()` and `parsed` the result of handing the file's contents
to the external parser. -/
inductive DirEntry where
  | dir (name : String)
  | file (name : String) (ext : Option String) (parsed : ParsedHtml)

/-- How `process_dir` fails on one entry. -/
inductive DriverErr where
  | foundDir (name : String)
  | nonHtml (name : String)
  | emitErr (name : String) (e : FmtErr)
deriving DecidableEq

/-- One iteration of `process_dir`'s loop: a directory is
`bail!("found directory ...")`; a file whose extension is not exactly
`html` is `bail!("found non-html file ...")`; otherwise parse
(`StaticDom::from_str`) and emit (`as_html`), propagating failures. -/
def process_entry (trim : Bool) : DirEntry → Except DriverErr String
  | .dir name => .error (.foundDir name)
  | .file name ext parsed =>
    if ext == some "html" then
      match from_str parsed trim with
      | .error e => .error (.emitErr name e)
      | .ok d =>
        match as_html d with
        | .error e => .error (.emitErr name e)
        | .ok s => .ok s
    else .error (.nonHtml name)

/-- `process_dir`: process the entries in order, stopping at the first
failing entry (every `bail!`/`?` aborts the whole run). -/
def process_dir (trim : Bool) : List DirEntry → Except DriverErr (List String)
  | [] => .ok []
  | e :: rest =>
    match process_entry trim e with
    | .error err => .error err
    | .ok s =>
      match process_dir trim rest with
      | .error err => .error err
      | .ok ss => .ok (s :: ss)

/-! ## The Markdown streaming formatter (`src/markdown.rs`) -/

/-- `pulldown_cmark::HeadingLevel`. -/
inductive HeadingLevel where
  | h1 | h2 | h3 | h4 | h5 | h6
deriving DecidableEq

/-- `conv_heading`. -/
def conv_heading : HeadingLevel → String
  | .h1 => "h1"
  | .h2 => "h2"
  | .h3 => "h3"
  | .h4 => "h4"
  | .h5 => "h5"
  | .h6 => "h6"

/-- `pulldown_cmark::Tag`, restricted to the data the emitter reads. -/
inductive MdTag where
  | paragraph
  | heading (level : HeadingLevel)
  | blockQuote
  | codeBlock
  | list (startNum : Option Nat)
  | item
  | footnoteDefinition (s : String)
  | table
  | tableHead
  | tableRow
  | tableCell
  | emphasis
  | strong
  | strikethrough
  | link (dest : String) (title : String)
  | image (dest : String) (title : String)
deriving DecidableEq

/-- `pulldown_cmark::Event`. -/
inductive MdEvent where
  | start (t : MdTag)
  | end' (t : MdTag)
  | text (s : String)
  | code (s : String)
  | html (s : String)
  | footnoteReference (s : String)
  | softBreak
  | hardBreak
  | rule
  | taskListMarker (done : Bool)
deriving DecidableEq

/-- What `fmt_start_event` writes for each tag at counter value `n`
(before the increment).  Note from the source: `Paragraph` and
`BlockQuote` lines carry no indent prefix; `Link`/`Image` use
`::dominator::html(` (no `!`) and their two `.attr` lines lack the closing
parenthesis; `List(Some(n))` adds a `start` attribute line at `n + 1`. -/
def mdStart (n : Nat) : MdTag → String
  | .paragraph => ".child(::dominator::html!(\"p\"), \x7b\n"
  | .heading lvl =>
    indentStr n ++ ".child(::dominator::html!(\"" ++ conv_heading lvl ++ "\", \x7b\n"
  | .blockQuote => ".child(::dominator::html!(\"pre\"), \x7b\n"
  | .codeBlock => indentStr n ++ ".child(::dominator::html!(\"code\"), \x7b\n"
  | .list (some num) =>
    indentStr n ++ ".child(::dominator::html!(\"ul\"), \x7b\n" ++
      indentStr (n + 1) ++ ".attr(\"start\", \"" ++ toString num ++ "\")\n"
  | .list none => indentStr n ++ ".child(::dominator::html!(\"ul\"), \x7b\n"
  | .item => indentStr n ++ ".child(::dominator::html!(\"li\"), \x7b\n"
  | .footnoteDefinition _ => ""
  | .table => ""
  | .tableHead => ""
  | .tableRow => ""
  | .tableCell => ""
  | .emphasis => ""
  | .strong => ""
  | .strikethrough => ""
  | .link dest title =>
    indentStr n ++ ".child(::dominator::html(\"a\"), \x7b\n" ++
      indentStr (n + 1) ++ ".attr(\"html\", \"" ++ escape_debug dest ++ "\"\n" ++
      indentStr (n + 1) ++ ".attr(\"title\", \"" ++ escape_debug title ++ "\"\n"
  | .image dest title =>
    indentStr n ++ ".child(::dominator::html(\"img\"), \x7b\n" ++
      indentStr (n + 1) ++ ".attr(\"src\", \"" ++ escape_debug dest ++ "\"\n" ++
      indentStr (n + 1) ++ ".attr(\"title\", \"" ++ escape_debug title ++ "\"\n"

/-- What `fmt_end_event` writes for each tag, at the already-decremented
counter value `n`.  Note from the source: `Image`'s end arm writes
nothing. -/
def mdEnd (n : Nat) : MdTag → String
  | .paragraph => indentStr n ++ "\x7d)\n"
  | .heading _ => indentStr n ++ "\x7d)\n"
  | .blockQuote => indentStr n ++ "\x7d)\n"
  | .codeBlock => indentStr n ++ "\x7d)\n"
  | .list _ => indentStr n ++ "\x7d)\n"
  | .item => indentStr n ++ "\x7d)\n"
  | .footnoteDefinition _ => ""
  | .table => ""
  | .tableHead => ""
  | .tableRow => ""
  | .tableCell => ""
  | .emphasis => ""
  | .strong => ""
  | .strikethrough => ""
  | .link _ _ => indentStr n ++ "\x7d)\n"
  | .image _ _ => ""

/-- `fmt_event` as a state transition on the indent counter, returning the
new counter and the text written.  `Start` increments after emitting,
`End` decrements before emitting (`self.indent -= 1` on a `u32`; at zero
this underflows — a defect modelled as `none`). -/
def stepEvent (n : Nat) : MdEvent → Option (Nat × String)
  | .start t => some (n + 1, mdStart n t)
  | .end' t =>
    match n with
    | 0 => none
    | m + 1 => some (m, mdEnd m t)
  | .text s => some (n, wline n (".text(\"" ++ escape_debug s ++ "\")"))
  | .code s =>
    some (n, indentStr n ++ ".child(::dominator::html!(\"code\") \x7b\n\x7d)\n" ++
      wline (n + 1) (".text(\"" ++ escape_debug s ++ "\")") ++ wline n "\x7d)")
  | .html _ => some (n, "")
  | .footnoteReference _ => some (n, "")
  | .softBreak => some (n, "")
  | .hardBreak => some (n, "")
  | .rule => some (n, ".child(::dominator::html!(\"hr\"))")
  | .taskListMarker done => some (n, ".text!(\"" ++ (if done then "☑" else "☐") ++ "\")\n")

/-- `StaticMarkdownWriter::fmt`: run the whole event stream from counter
`n`, accumulating output; `none` as soon as a decrement underflows. -/
def runMd : Nat → List MdEvent → Option (Nat × String)
  | n, [] => some (n, "")
  | n, e :: es =>
    match stepEvent n e with
    | none => none
    | some (n', s) =>
      match runMd n' es with
      | none => none
      | some (n'', out) => some (n'', s ++ out)

/-- Is the event neither a `Start` nor an `End`? -/
def mdIsLeaf : MdEvent → Bool
  | .start _ => false
  | .end' _ => false
  | _ => true

/-- Balanced event streams: the Parsed-Document invariant that every
`Start(tag)` has a matching later `End(tag)` at the same nesting depth. -/
inductive MdBalanced : List MdEvent → Prop where
  | nil : MdBalanced []
  | leaf (e : MdEvent) (l : List MdEvent) :
      mdIsLeaf e = true → MdBalanced l → MdBalanced (e :: l)
  | node (t : MdTag) (inner rest : List MdEvent) :
      MdBalanced inner → MdBalanced rest →
      MdBalanced (.start t :: inner ++ .end' t :: rest)

/-! ## Predicates used in the statements -/

/-- Plain concatenation of a list of emitted pieces. -/
def strConcat : List String → String
  | [] => ""
  | s :: rest => s ++ strConcat rest

/-- Is the node value an `Element` or a `Text`? -/
def elOrText : NodeVal → Bool
  | .element .. => true
  | .text _ => true
  | _ => false

mutual
/-- Every node of the tree (the root included) is an element or a text
node. -/
def allElText : HTree → Bool
  | .mk _ v cs => elOrText v && allElTextF cs
/-- Forest part of `allElText`. -/
def allElTextF : HForest → Bool
  | .nil => true
  | .cons c rest => allElText c && allElTextF rest
end

mutual
/-- Text nodes are leaves — the Parsed-Document shape the external HTML
parser guarantees (only elements receive children). -/
def textLeaves : HTree → Bool
  | .mk _ v cs =>
    (match v with
     | .text _ => isNilF cs
     | _ => true) && textLeavesF cs
/-- Forest part of `textLeaves`. -/
def textLeavesF : HForest → Bool
  | .nil => true
  | .cons c rest => textLeaves c && textLeavesF rest
end

mutual
/-- Every node's children all pass the visibility filter (the regime in
which raw child count and survivor count agree). -/
def allVisible (trim : Bool) : HTree → Bool
  | .mk _ _ cs => allVisibleF trim cs
/-- Forest part of `allVisible`. -/
def allVisibleF (trim : Bool) : HForest → Bool
  | .nil => true
  | .cons c rest => filter_node_text c trim && allVisible trim c && allVisibleF trim rest
end

/-! # Theorems

First shared helper lemmas, then one theorem per claim (with its witness or
counterexample where required). -/

/-- Collapsing the trailing `++ ""` of a fully-consumed sibling loop. -/
theorem ex_append_empty (x : Except FmtErr String) :
    (match x with
     | .error e => Except.error e
     | .ok s => Except.ok (s ++ "")) = x := by
  cases x with
  | error e => rfl
  | ok s =>
    show Except.ok (s ++ "") = Except.ok s
    rw [String.append_empty]

/-- `format_children` restated in the source's shape: branch on the raw
child count, the children-list branch delegating to the filtered sibling
loop. -/
theorem format_children_eq (cs : HForest) (ind : Nat) (trim : Bool) :
    format_children cs ind trim =
      (match cs with
       | .nil => Except.ok ""
       | .cons c .nil =>
         if is_escape c then wrapChildren ind (format_sib (.cons c .nil) (ind + 2) trim)
         else wrapChild ind (format_node c (ind + 2) false trim)
       | .cons c rest => wrapChildren ind (format_sib (.cons c rest) (ind + 2) trim)) := by
  cases cs with
  | nil => rfl
  | cons c rest =>
    cases rest with
    | nil => rfl
    | cons d rest2 => rfl

/-- `format_children_spec` restated: branch on the survivor count. -/
theorem format_children_spec_eq (cs : HForest) (ind : Nat) (trim : Bool) :
    format_children_spec cs ind trim =
      (match countVisible cs trim with
       | 0 => Except.ok ""
       | 1 => single_spec cs ind trim
       | _ + 2 => wrapChildren ind (format_sib_spec cs (ind + 2) trim)) := by
  cases cs with
  | nil => rfl
  | cons c rest =>
    cases h : countVisible (.cons c rest) trim with
    | zero => simp only [format_children_spec, h]
    | succ m =>
      cases m with
      | zero => simp only [format_children_spec, h, single_spec]
      | succ k => simp only [format_children_spec, h, format_sib_spec]

/-- The style loop emits exactly one `.style` line per extracted pair, in
order. -/
theorem styleSegs_pairs : ∀ (segs : List String) (ind : Nat) (ps : List (String × String)),
    stylePairsSegs segs = .ok ps →
    styleSegs ind segs = .ok (strConcat (ps.map fun p =>
      wline ind (".style(\"" ++ escape_debug p.1 ++ "\", \"" ++ escape_debug p.2 ++ "\")"))) := by
  intro segs
  induction segs with
  | nil =>
    intro ind ps h
    simp only [stylePairsSegs] at h
    cases h
    rfl
  | cons seg rest ih =>
    intro ind ps h
    simp only [stylePairsSegs] at h
    simp only [styleSegs]
    by_cases he : (rtrim seg == "") = true
    · rw [if_pos he] at h ⊢
      exact ih ind ps h
    · rw [if_neg he] at h ⊢
      cases hsf : splitFirst ':' (rtrim seg) with
      | none => rw [hsf] at h; cases h
      | some p =>
        rw [hsf] at h
        cases hrest : stylePairsSegs rest with
        | error e => rw [hrest] at h; cases h
        | ok ps' =>
          rw [hrest] at h
          cases h
          rw [ih ind ps' hrest]
          rfl

/-- C4: a `style` attribute value is split on `;`; each segment is trimmed
and skipped if empty; each remaining segment is split once at its first
`:`; one `.style` line is emitted per pair in source order.  In particular
`"color:red; ;margin:0"` yields exactly the two pairs
`color`/`red` and `margin`/`0` (the empty middle segment emits nothing),
`"a:b:c"` splits only at the first colon, and an element carrying that
style attribute emits exactly the two `.style` lines. -/
theorem C4_style_attribute :
    (∀ (ind : Nat) (s : String) (ps : List (String × String)),
      stylePairs s = .ok ps →
      styleClause ind s = .ok (strConcat (ps.map fun p =>
        wline ind (".style(\"" ++ escape_debug p.1 ++ "\", \"" ++ escape_debug p.2 ++ "\")")))) ∧
    stylePairs "color:red; ;margin:0" = .ok [("color", "red"), ("margin", "0")] ∧
    (∀ ind : Nat, styleClause ind "color:red; ;margin:0" =
      .ok (wline ind ".style(\"color\", \"red\")" ++ wline ind ".style(\"margin\", \"0\")")) ∧
    stylePairs "a:b:c" = .ok [("a", "b:c")] ∧
    format_node (.mk 1 (.element ⟨none, "div"⟩ [] [(⟨none, "style"⟩, "color:red; ;margin:0")]) .nil)
        0 false false =
      .ok ("::dominator::html!(\"div\", \x7b\n  .style(\"color\", \"red\")\n  .style(\"margin\", \"0\")\n\x7d)\n") := by
  refine ⟨fun ind s ps h => styleSegs_pairs (rsplit ';' s) ind ps h,
    by decide, fun ind => ?_, by decide, by decide⟩
  have h : styleClause ind "color:red; ;margin:0" =
      .ok (wline ind ".style(\"color\", \"red\")" ++ (wline ind ".style(\"margin\", \"0\")" ++ "")) := rfl
  rw [h, String.append_empty]

/-- Witness for C4: the general pair-to-line statement applied to the
spec's example string. -/
theorem C4_style_attribute_witness :
    styleClause 3 "color:red; ;margin:0" = .ok (strConcat
      ([("color", "red"), ("margin", "0")].map fun p =>
        wline 3 (".style(\"" ++ escape_debug p.1 ++ "\", \"" ++ escape_debug p.2 ++ "\")"))) :=
  C4_style_attribute.1 3 "color:red; ;margin:0" [("color", "red"), ("margin", "0")] (by decide)

/-- C2 (amended): formatting an element whose (unprefixed) tag name is
exactly `escape` with a single text child copies that child's raw content
verbatim, line by line, with NO indentation prefix (flush left — the
caller's `Indenter` is ignored, which coincides with the caller's indent
level only at depth 0), no wrapping builder call, no class/attribute/
children processing, independently of the trim flag and of the trailing
comma. -/
theorem C2_escape_hatch (i j : Nat) (name : QName) (cls : List String)
    (attrs : List (QName × String)) (s : String) (ind : Nat) (tcb trim : Bool)
    (hpfx : name.pfx = none) (hname : name.localName = "escape") :
    format_node (.mk i (.element name cls attrs) (.cons (.mk j (.text s) .nil) .nil)) ind tcb trim =
      .ok (String.join ((rlines s).map fun l => l ++ "\n")) := by
  simp [format_node, hpfx, hname, escapeEmit, HTree.val]

/-- Witness for C2: `<escape>console.log(1);</escape>` emits exactly the
line `console.log(1);` for either trim-flag value. -/
theorem C2_escape_hatch_witness :
    format_node (.mk 1 (.element ⟨none, "escape"⟩ [] [])
        (.cons (.mk 2 (.text "console.log(1);") .nil) .nil)) 0 false true =
      .ok "console.log(1);\n" ∧
    format_node (.mk 1 (.element ⟨none, "escape"⟩ [] [])
        (.cons (.mk 2 (.text "console.log(1);") .nil) .nil)) 0 false false =
      .ok "console.log(1);\n" :=
  ⟨(C2_escape_hatch 1 2 ⟨none, "escape"⟩ [] [] "console.log(1);" 0 false true rfl rfl).trans
      (by decide),
   (C2_escape_hatch 1 2 ⟨none, "escape"⟩ [] [] "console.log(1);" 0 false false rfl rfl).trans
      (by decide)⟩

/-- Counterexample for C2 as stated: formatted at caller indent level 1,
the escape content comes out flush left (`"x\n"`), not at the caller's
indent level (`"  x\n"`). -/
theorem C2_escape_hatch_counterexample :
    format_node (.mk 1 (.element ⟨none, "escape"⟩ [] [])
        (.cons (.mk 2 (.text "x") .nil) .nil)) 1 false false = .ok "x\n" ∧
    ("x\n" : String) ≠ wline 1 "x" := by
  exact ⟨by decide, by decide⟩

/-- Counterexample for C1 as stated: a `div` with a single all-whitespace
text child under the trim flag has zero *surviving* children, so the
claimed survivor-based rule emits no children clause, but `format_node`
branches on the RAW child count and emits an (empty) `.child( ... )`
clause. -/
theorem C1_children_clause_counterexample :
    format_node (.mk 1 (.element ⟨none, "div"⟩ [] []) (.cons (.mk 2 (.text "  ") .nil) .nil))
        0 false true =
      .ok ("::dominator::html!(\"div\", \x7b\n  .child(\n  )\n\x7d)\n") ∧
    format_node_spec (.mk 1 (.element ⟨none, "div"⟩ [] []) (.cons (.mk 2 (.text "  ") .nil) .nil))
        0 false true =
      .ok ("::dominator::html!(\"div\", \x7b\n\x7d)\n") ∧
    format_node (.mk 1 (.element ⟨none, "div"⟩ [] []) (.cons (.mk 2 (.text "  ") .nil) .nil))
        0 false true ≠
      format_node_spec (.mk 1 (.element ⟨none, "div"⟩ [] []) (.cons (.mk 2 (.text "  ") .nil) .nil))
        0 false true := by
  exact ⟨by decide, by decide, by decide⟩

/-- Destructuring the all-visible predicate on a non-empty forest. -/
theorem allVisibleF_cons {trim : Bool} {c : HTree} {rest : HForest}
    (h : allVisibleF trim (.cons c rest) = true) :
    filter_node_text c trim = true ∧ allVisible trim c = true ∧ allVisibleF trim rest = true := by
  simp only [allVisibleF, Bool.and_eq_true] at h
  exact ⟨h.1.1, h.1.2, h.2⟩

mutual
/-- In the all-visible regime the code's raw-count children branching and
the spec's survivor-count branching coincide, node by node. -/
theorem format_agree (t : HTree) (ind : Nat) (tcb trim : Bool)
    (h : allVisible trim t = true) :
    format_node t ind tcb trim = format_node_spec t ind tcb trim := by
  cases t with
  | mk i v cs =>
    cases v with
    | element name classes attrs =>
      have hcs : allVisibleF trim cs = true := by simpa [allVisible] using h
      simp only [format_node, format_node_spec]
      by_cases hp : name.pfx.isSome = true
      · simp [hp]
      · by_cases hn : (name.localName == "escape") = true
        · simp [hp, hn]
        · simp only [hp, hn, Bool.false_eq_true, if_false]
          suffices hch : format_children cs ind trim = format_children_spec cs ind trim by
            rw [hch]
          cases cs with
          | nil => rfl
          | cons c rest =>
            obtain ⟨hc, hac, hrest⟩ := allVisibleF_cons hcs
            cases rest with
            | nil =>
              rw [format_children_eq, format_children_spec_eq]
              have hcount : countVisible (.cons c .nil) trim = 1 := by
                simp [countVisible, visibleF, hc]
              rw [hcount]
              show (if is_escape c = true then
                      wrapChildren ind (format_sib (.cons c .nil) (ind + 2) trim)
                    else wrapChild ind (format_node c (ind + 2) false trim)) =
                  single_spec (.cons c .nil) ind trim
              have hs : format_sib (.cons c .nil) (ind + 2) trim =
                  format_node c (ind + 2) false trim := by
                simp only [format_sib, hc, if_true]
                have hv : hasVisible .nil trim = false := rfl
                rw [hv]
                exact ex_append_empty _
              simp only [single_spec, hc, if_true]
              by_cases hesc : is_escape c = true
              · simp only [hesc, if_true]
                rw [hs, format_agree c (ind + 2) false trim hac]
              · simp only [hesc, Bool.false_eq_true, if_false]
                rw [format_agree c (ind + 2) false trim hac]
            | cons d rest2 =>
              rw [format_children_eq, format_children_spec_eq]
              obtain ⟨hd, _, _⟩ := allVisibleF_cons hrest
              have hcount : countVisible (.cons c (.cons d rest2)) trim =
                  (visibleF rest2 trim).length + 2 := by
                simp [countVisible, visibleF, hc, hd]
              rw [hcount]
              show wrapChildren ind (format_sib (.cons c (.cons d rest2)) (ind + 2) trim) =
                  wrapChildren ind (format_sib_spec (.cons c (.cons d rest2)) (ind + 2) trim)
              rw [sib_agree (.cons c (.cons d rest2)) (ind + 2) trim hcs]
    | text txt => rfl
    | document => rfl
    | fragment => rfl
    | doctype s => rfl
    | comment s => rfl
    | procInst s => rfl
termination_by sizeOf t

/-- Forest part of `format_agree`. -/
theorem sib_agree (f : HForest) (ind : Nat) (trim : Bool)
    (h : allVisibleF trim f = true) :
    format_sib f ind trim = format_sib_spec f ind trim := by
  cases f with
  | nil => rfl
  | cons c rest =>
    obtain ⟨hc, hac, hrest⟩ := allVisibleF_cons h
    simp only [format_sib, format_sib_spec, hc, if_true]
    rw [format_agree c ind (hasVisible rest trim) trim hac,
      sib_agree rest ind trim hrest]
termination_by sizeOf f
end

/-- C1 (amended): the children clause is chosen by the RAW child count —
zero children emit no clause; exactly one child that is not an `escape`
element emits a `.child( ... )` call wrapping that (unfiltered) child's
formatting; otherwise (one escape child, or two or more children) a
`.children(&mut [ ... ])` call is emitted containing the children that
survive the visibility filter, each formatted with the trailing-separator
flag set except the last.  The claimed survivor-based rule coincides with
this whenever every child (recursively) passes the visibility filter. -/
theorem C1_children_clause :
    (∀ (cs : HForest) (ind : Nat) (trim : Bool),
      format_children cs ind trim =
        (match cs with
         | .nil => Except.ok ""
         | .cons c .nil =>
           if is_escape c then wrapChildren ind (format_sib (.cons c .nil) (ind + 2) trim)
           else wrapChild ind (format_node c (ind + 2) false trim)
         | .cons c rest => wrapChildren ind (format_sib (.cons c rest) (ind + 2) trim))) ∧
    (∀ (t : HTree) (ind : Nat) (tcb trim : Bool), allVisible trim t = true →
      format_node t ind tcb trim = format_node_spec t ind tcb trim) :=
  ⟨format_children_eq, format_agree⟩

/-- Witness for C1: on a fully visible tree the code and the claimed rule
produce the same text. -/
theorem C1_children_clause_witness :
    allVisible false
      (.mk 1 (.element ⟨none, "div"⟩ [] []) (.cons (.mk 2 (.text "hi") .nil) .nil)) = true ∧
    format_node (.mk 1 (.element ⟨none, "div"⟩ [] []) (.cons (.mk 2 (.text "hi") .nil) .nil))
        0 false false =
      format_node_spec (.mk 1 (.element ⟨none, "div"⟩ [] [])
        (.cons (.mk 2 (.text "hi") .nil) .nil)) 0 false false :=
  ⟨by decide, C1_children_clause.2 _ 0 false false (by decide)⟩

/-- A forest with no visible children emits nothing in the sibling loop. -/
theorem sib_empty : ∀ (f : HForest) (ind : Nat) (trim : Bool),
    countVisible f trim = 0 → format_sib f ind trim = .ok ""
  | .nil, _, _, _ => rfl
  | .cons c rest, ind, trim, h => by
    simp only [countVisible, visibleF] at h
    by_cases hc : filter_node_text c trim = true
    · rw [if_pos hc] at h
      cases h
    · rw [if_neg hc] at h
      simp only [format_sib, hc, Bool.false_eq_true, if_false]
      exact sib_empty rest ind trim h

/-- The fused sibling loop equals the loop over the filtered child list. -/
theorem format_sib_eq_sibGo : ∀ (f : HForest) (ind : Nat) (trim : Bool),
    format_sib f ind trim = sibGo (visibleF f trim) ind trim
  | .nil, _, _ => rfl
  | .cons c rest, ind, trim => by
    by_cases hc : filter_node_text c trim = true
    · simp only [format_sib, visibleF, hc, if_true]
      cases hv : visibleF rest trim with
      | nil =>
        have h0 : countVisible rest trim = 0 := by simp [countVisible, hv]
        have hmore : hasVisible rest trim = false := by simp [hasVisible, hv]
        rw [hmore, sib_empty rest ind trim h0]
        show (match format_node c ind false trim with
              | .error e => Except.error e
              | .ok s => Except.ok (s ++ "")) = sibGo [c] ind trim
        rw [ex_append_empty]
        rfl
      | cons v vs =>
        have hmore : hasVisible rest trim = true := by simp [hasVisible, hv]
        rw [hmore, format_sib_eq_sibGo rest ind trim, hv]
        rfl
    · simp only [format_sib, visibleF, hc, Bool.false_eq_true, if_false]
      exact format_sib_eq_sibGo rest ind trim

/-- C3 (amended): `as_html` counts the root's visible children: zero
visible children emit nothing; exactly one visible child is emitted
unwrapped, with the trailing-separator flag clear; two or more are wrapped
in `[` ... `]`, the loop formatting each visible child with the
trailing-separator flag set except the last (the flag appends a comma for
element and text children but is ignored by `escape` elements). -/
theorem C3_top_level (d : StaticDom) (h : HTree) (hget : get_html d.inner = some h) :
    (countVisible h.children d.trim = 0 → as_html d = .ok "") ∧
    (∀ c, visibleF h.children d.trim = [c] → as_html d = format_node c 0 false d.trim) ∧
    (1 < countVisible h.children d.trim →
      as_html d = (match format_sib h.children 0 d.trim with
                   | .error e => Except.error e
                   | .ok body => Except.ok ("[" ++ body ++ "]"))) := by
  refine ⟨fun h0 => ?_, fun c hc => ?_, fun h2 => ?_⟩
  · simp only [as_html, hget, h0, sib_empty h.children 0 d.trim h0]
    rfl
  · have h1 : countVisible h.children d.trim = 1 := by simp [countVisible, hc]
    simp only [as_html, hget, h1, format_sib_eq_sibGo, hc]
    show (match format_node c 0 false d.trim with
          | .error e => Except.error e
          | .ok body => Except.ok ((if 1 > 1 then "[" else "") ++ body ++
              (if 1 > 1 then "]" else ""))) = format_node c 0 false d.trim
    cases hfc : format_node c 0 false d.trim with
    | error e => rfl
    | ok body =>
      show Except.ok ("" ++ body ++ "") = Except.ok body
      rw [String.append_empty]
      rfl
  · simp only [as_html, hget]
    have hgt : (countVisible h.children d.trim > 1) = True := by
      simp [h2]
    cases hfs : format_sib h.children 0 d.trim with
    | error e => rfl
    | ok body =>
      simp [hgt, if_pos, h2]

/-- Witness for C3: a document with exactly one visible top-level child is
emitted unwrapped. -/
theorem C3_top_level_witness :
    as_html ⟨.mk 0 .fragment (.cons (.mk 1 (.element ⟨none, "html"⟩ [] [])
        (.cons (.mk 2 (.element ⟨none, "div"⟩ [] []) .nil) .nil)) .nil), false⟩ =
      format_node (.mk 2 (.element ⟨none, "div"⟩ [] []) .nil) 0 false false :=
  (C3_top_level ⟨.mk 0 .fragment (.cons (.mk 1 (.element ⟨none, "html"⟩ [] [])
      (.cons (.mk 2 (.element ⟨none, "div"⟩ [] []) .nil) .nil)) .nil), false⟩
    (.mk 1 (.element ⟨none, "html"⟩ [] [])
      (.cons (.mk 2 (.element ⟨none, "div"⟩ [] []) .nil) .nil)) rfl).2.1
    (.mk 2 (.element ⟨none, "div"⟩ [] []) .nil) rfl

/-- Counterexample for C3 as stated: two visible top-level children, the
first an `escape` element.  The output is wrapped in `[` ... `]`, but the
first child's formatting (`x` on its own line) is followed directly by the
second child's opening `::dominator` line with NO comma separator between
them, because the escape branch ignores the trailing-separator flag (shown
by the last conjunct: the escape child formats identically with the flag
set and clear). -/
theorem C3_top_level_counterexample :
    countVisible (HTree.children (.mk 1 (.element ⟨none, "html"⟩ [] [])
        (.cons (.mk 2 (.element ⟨none, "escape"⟩ [] []) (.cons (.mk 3 (.text "x") .nil) .nil))
          (.cons (.mk 4 (.element ⟨none, "div"⟩ [] []) .nil) .nil)))) false = 2 ∧
    as_html ⟨.mk 0 .fragment (.cons (.mk 1 (.element ⟨none, "html"⟩ [] [])
        (.cons (.mk 2 (.element ⟨none, "escape"⟩ [] []) (.cons (.mk 3 (.text "x") .nil) .nil))
          (.cons (.mk 4 (.element ⟨none, "div"⟩ [] []) .nil) .nil))) .nil), false⟩ =
      .ok "[x\n::dominator::html!(\"div\", \x7b\n\x7d)\n]" ∧
    ("[x\n::dominator::html!(\"div\", \x7b\n\x7d)\n]" : String).data.take 4 =
      ['[', 'x', '\n', ':'] ∧
    format_node (.mk 2 (.element ⟨none, "escape"⟩ [] []) (.cons (.mk 3 (.text "x") .nil) .nil))
        0 true false =
      format_node (.mk 2 (.element ⟨none, "escape"⟩ [] []) (.cons (.mk 3 (.text "x") .nil) .nil))
        0 false false := by
  exact ⟨by decide, by decide, by decide, by decide⟩

/-- The escape hatch never aborts with `unexpectedNode`. -/
theorem escapeEmit_not_unexp (cs : HForest) : escapeEmit cs ≠ .error .unexpectedNode := by
  cases cs with
  | nil => decide
  | cons c rest =>
    cases hv : c.val <;> simp [escapeEmit, hv]

/-- An error result whose kind is not `unexpectedNode`. -/
theorem error_ne_unexp {e : FmtErr} (hne : e ≠ FmtErr.unexpectedNode) :
    (Except.error e : Except FmtErr String) ≠ .error .unexpectedNode :=
  fun hcontra => hne (Except.error.inj hcontra)

/-- The style loop only ever aborts with `styleNoColon`. -/
theorem styleSegs_not_unexp : ∀ (segs : List String) (ind : Nat),
    styleSegs ind segs ≠ .error .unexpectedNode
  | [], _ => fun hcontra => Except.noConfusion hcontra
  | seg :: rest, ind => by
    simp only [styleSegs]
    by_cases he : (rtrim seg == "") = true
    · simp only [he, if_true]
      exact styleSegs_not_unexp rest ind
    · simp only [he, Bool.false_eq_true, if_false]
      cases hsf : splitFirst ':' (rtrim seg) with
      | none => exact error_ne_unexp (by decide)
      | some p =>
        cases p with
        | mk n v =>
          cases hr : styleSegs ind rest with
          | error e =>
            intro hcontra
            exact styleSegs_not_unexp rest ind (by rw [hr]; exact hcontra)
          | ok r => simp

/-- The attribute loop only ever aborts with `nsAttr`. -/
theorem attrsClause_not_unexp : ∀ (l : List (QName × String)) (ind : Nat),
    attrsClause ind l ≠ .error .unexpectedNode
  | [], _ => fun hcontra => Except.noConfusion hcontra
  | (n, v) :: rest, ind => by
    simp only [attrsClause]
    by_cases hp : n.pfx.isSome = true
    · simp [hp]
    · simp only [hp, Bool.false_eq_true, if_false]
      cases hr : attrsClause ind rest with
      | error e =>
        intro hcontra
        exact attrsClause_not_unexp rest ind (by rw [hr]; exact hcontra)
      | ok r => simp

/-- `wrapChild` introduces no new error. -/
theorem wrapChild_not_unexp (ind : Nat) (x : Except FmtErr String)
    (hx : x ≠ .error .unexpectedNode) : wrapChild ind x ≠ .error .unexpectedNode := by
  cases x with
  | error e =>
    intro hcontra
    exact hx hcontra
  | ok s => simp [wrapChild]

/-- `wrapChildren` introduces no new error. -/
theorem wrapChildren_not_unexp (ind : Nat) (x : Except FmtErr String)
    (hx : x ≠ .error .unexpectedNode) : wrapChildren ind x ≠ .error .unexpectedNode := by
  cases x with
  | error e =>
    intro hcontra
    exact hx hcontra
  | ok s => simp [wrapChildren]

/-- `el_open_close` aborts only through its style clause, attribute clause
or children clause. -/
theorem el_open_close_not_unexp (name : QName) (cls : List String)
    (attrs : List (QName × String)) (cp : Except FmtErr String) (ind : Nat) (tc : String)
    (hcp : cp ≠ .error .unexpectedNode) :
    el_open_close name cls attrs cp ind tc ≠ .error .unexpectedNode := by
  have hstyle : (match attrs.find? (fun a => a.1.localName == "style") with
      | none => Except.ok ""
      | some a => styleClause (ind + 1) a.2) ≠ Except.error FmtErr.unexpectedNode := by
    cases hf : attrs.find? (fun a => a.1.localName == "style") with
    | none => simp
    | some a => exact styleSegs_not_unexp (rsplit ';' a.2) (ind + 1)
  unfold el_open_close
  cases hst : (match attrs.find? (fun a => a.1.localName == "style") with
      | none => Except.ok ""
      | some a => styleClause (ind + 1) a.2) with
  | error e =>
    intro hcontra
    exact hstyle (by rw [hst]; exact hcontra)
  | ok styleL =>
    cases hat : attrsClause (ind + 1)
        (attrs.filter fun a => !(a.1.localName == "style") && !(a.1.localName == "class")) with
    | error e =>
      intro hcontra
      exact attrsClause_not_unexp _ (ind + 1) (by rw [hat]; exact hcontra)
    | ok attrL =>
      cases cp with
      | error e =>
        intro hcontra
        exact hcp hcontra
      | ok childL => simp

mutual
/-- On a tree all of whose nodes are elements or text, `format_node` never
reaches its `unreachable!` branch. -/
theorem format_node_not_unexp (t : HTree) (ind : Nat) (tcb trim : Bool)
    (h : allElText t = true) :
    format_node t ind tcb trim ≠ .error .unexpectedNode := by
  cases t with
  | mk i v cs =>
    have hf : allElTextF cs = true := by
      have := (Bool.and_eq_true _ _).mp (by simpa [allElText] using h)
      exact this.2
    cases v with
    | element name classes attrs =>
      simp only [format_node]
      by_cases hp : name.pfx.isSome = true
      · simp [hp]
      · by_cases hn : (name.localName == "escape") = true
        · simp only [hp, hn, Bool.false_eq_true, if_false, if_true]
          exact escapeEmit_not_unexp cs
        · simp only [hp, hn, Bool.false_eq_true, if_false]
          exact el_open_close_not_unexp _ _ _ _ _ _ (format_children_not_unexp cs ind trim hf)
    | text txt =>
      simp only [format_node]
      by_cases ht : ((if trim then rtrim txt else txt) == "") = true <;> simp [ht]
    | document => simp [allElText, elOrText] at h
    | fragment => simp [allElText, elOrText] at h
    | doctype s => simp [allElText, elOrText] at h
    | comment s => simp [allElText, elOrText] at h
    | procInst s => simp [allElText, elOrText] at h
termination_by sizeOf t

/-- Children-clause part of `format_node_not_unexp`. -/
theorem format_children_not_unexp (cs : HForest) (ind : Nat) (trim : Bool)
    (h : allElTextF cs = true) :
    format_children cs ind trim ≠ .error .unexpectedNode := by
  cases cs with
  | nil => simp [format_children]
  | cons c rest =>
    have hparts := (Bool.and_eq_true _ _).mp (by simpa [allElTextF] using h)
    simp only [format_children]
    by_cases hnil : isNilF rest = true
    · simp only [hnil, if_true]
      by_cases hesc : is_escape c = true
      · simp only [hesc, if_true]
        apply wrapChildren_not_unexp
        by_cases hvis : filter_node_text c trim = true
        · simp only [hvis, if_true]
          cases hn : format_node c (ind + 2) false trim with
          | error e =>
            intro hcontra
            exact format_node_not_unexp c (ind + 2) false trim hparts.1
              (by rw [hn]; exact hcontra)
          | ok s => simp
        · simp only [hvis, Bool.false_eq_true, if_false]
          simp
      · simp only [hesc, Bool.false_eq_true, if_false]
        exact wrapChild_not_unexp _ _ (format_node_not_unexp c (ind + 2) false trim hparts.1)
    · simp only [hnil, Bool.false_eq_true, if_false]
      apply wrapChildren_not_unexp
      by_cases hvis : filter_node_text c trim = true
      · simp only [hvis, if_true]
        cases hn : format_node c (ind + 2) (hasVisible rest trim) trim with
        | error e =>
          intro hcontra
          exact format_node_not_unexp c (ind + 2) (hasVisible rest trim) trim hparts.1
            (by rw [hn]; exact hcontra)
        | ok s =>
          cases hr : format_sib rest (ind + 2) trim with
          | error e =>
            intro hcontra
            exact format_sib_not_unexp rest (ind + 2) trim hparts.2 (by rw [hr]; exact hcontra)
          | ok r => simp
      · simp only [hvis, Bool.false_eq_true, if_false]
        exact format_sib_not_unexp rest (ind + 2) trim hparts.2
termination_by sizeOf cs

/-- Sibling-loop part of `format_node_not_unexp`. -/
theorem format_sib_not_unexp (f : HForest) (ind : Nat) (trim : Bool)
    (h : allElTextF f = true) : format_sib f ind trim ≠ .error .unexpectedNode := by
  cases f with
  | nil => simp [format_sib]
  | cons c rest =>
    have hparts := (Bool.and_eq_true _ _).mp (by simpa [allElTextF] using h)
    simp only [format_sib]
    by_cases hv : filter_node_text c trim = true
    · simp only [hv, if_true]
      cases hn : format_node c ind (hasVisible rest trim) trim with
      | error e =>
        intro hcontra
        exact format_node_not_unexp c ind (hasVisible rest trim) trim hparts.1
          (by rw [hn]; exact hcontra)
      | ok s =>
        cases hr : format_sib rest ind trim with
        | error e =>
          intro hcontra
          exact format_sib_not_unexp rest ind trim hparts.2 (by rw [hr]; exact hcontra)
        | ok r => simp
    · simp only [hv, Bool.false_eq_true, if_false]
      exact format_sib_not_unexp rest ind trim hparts.2
termination_by sizeOf f
end

/-- A prefixed attribute anywhere in the (filtered) attribute list makes
the attribute loop abort with `nsAttr`. -/
theorem attrs_pfx_err : ∀ (l : List (QName × String)) (ind : Nat),
    (∃ a ∈ l, a.1.pfx.isSome = true) → attrsClause ind l = .error .nsAttr
  | [], _, h => by simp at h
  | (n, v) :: rest, ind, h => by
    simp only [attrsClause]
    by_cases hp : n.pfx.isSome = true
    · simp [hp]
    · simp only [hp, Bool.false_eq_true, if_false]
      have hrest : ∃ a ∈ rest, a.1.pfx.isSome = true := by
        obtain ⟨a, ha, hpa⟩ := h
        cases ha with
        | head => exact absurd hpa hp
        | tail _ hmem => exact ⟨a, hmem, hpa⟩
      rw [attrs_pfx_err rest ind hrest]

/-- A non-empty style segment with no `:` makes the style loop abort with
`styleNoColon`. -/
theorem styleSegs_colon_err : ∀ (segs : List String) (ind : Nat),
    (∃ seg ∈ segs, rtrim seg ≠ "" ∧ splitFirst ':' (rtrim seg) = none) →
    styleSegs ind segs = .error .styleNoColon
  | [], _, h => by simp at h
  | seg :: rest, ind, h => by
    simp only [styleSegs]
    by_cases he : (rtrim seg == "") = true
    · simp only [he, if_true]
      apply styleSegs_colon_err rest ind
      obtain ⟨s, hs, hne, hnone⟩ := h
      cases hs with
      | head => exact absurd (by simpa using he) hne
      | tail _ hmem => exact ⟨s, hmem, hne, hnone⟩
    · simp only [he, Bool.false_eq_true, if_false]
      cases hsf : splitFirst ':' (rtrim seg) with
      | none => rfl
      | some p =>
        have hrest : ∃ s ∈ rest, rtrim s ≠ "" ∧ splitFirst ':' (rtrim s) = none := by
          obtain ⟨s, hs, hne, hnone⟩ := h
          cases hs with
          | head => rw [hsf] at hnone; cases hnone
          | tail _ hmem => exact ⟨s, hmem, hne, hnone⟩
        cases p with
        | mk n v => rw [styleSegs_colon_err rest ind hrest]

/-- A failing style clause aborts the whole element emission. -/
theorem format_node_style_err (i : Nat) (name : QName) (cls : List String)
    (attrs : List (QName × String)) (cs : HForest) (ind : Nat) (tcb trim : Bool)
    (hp : name.pfx = none) (hn : ¬ name.localName = "escape")
    (hsty : (match attrs.find? (fun a => a.1.localName == "style") with
             | none => Except.ok ""
             | some a => styleClause (ind + 1) a.2) = Except.error FmtErr.styleNoColon) :
    format_node (.mk i (.element name cls attrs) cs) ind tcb trim = .error .styleNoColon := by
  simp only [format_node, hp, Option.isSome_none, Bool.false_eq_true, if_false]
  rw [if_neg (by simp [hn])]
  simp only [el_open_close]
  rw [hsty]

/-- A prefixed generic attribute aborts the whole element emission (once
the style clause has succeeded). -/
theorem format_node_attr_err (i : Nat) (name : QName) (cls : List String)
    (attrs : List (QName × String)) (cs : HForest) (ind : Nat) (tcb trim : Bool)
    (hp : name.pfx = none) (hn : ¬ name.localName = "escape") (st : String)
    (hsty : (match attrs.find? (fun a => a.1.localName == "style") with
             | none => Except.ok ""
             | some a => styleClause (ind + 1) a.2) = Except.ok st)
    (hattr : attrsClause (ind + 1)
        (attrs.filter fun a => !(a.1.localName == "style") && !(a.1.localName == "class")) =
      .error .nsAttr) :
    format_node (.mk i (.element name cls attrs) cs) ind tcb trim = .error .nsAttr := by
  simp only [format_node, hp, Option.isSome_none, Bool.false_eq_true, if_false]
  rw [if_neg (by simp [hn])]
  simp only [el_open_close]
  rw [hsty, hattr]

/-- C7 (amended): emission aborts in exactly these structural cases — a
prefixed element tag name (`nsTag`); an `escape` element with NO children
or whose FIRST child is not a text node (`escapeNotText` — an `escape`
element whose first child is text does NOT abort even when further
children follow, see the counterexample); a non-empty style segment
without `:` (`styleNoColon`), which aborts the element carrying it; a
namespace-prefixed non-`style`/non-`class` attribute (`nsAttr`), which
aborts its element; and on element/text-only trees no other abort
(`unexpectedNode`) can arise.  All aborts discard the output (`Except`
yields no partial result). -/
theorem C7_fatal_conditions :
    (∀ (i : Nat) (p : String) (name : QName) (cls : List String)
        (attrs : List (QName × String)) (cs : HForest) (ind : Nat) (tcb trim : Bool),
      name.pfx = some p →
      format_node (.mk i (.element name cls attrs) cs) ind tcb trim = .error .nsTag) ∧
    (∀ (i : Nat) (name : QName) (cls : List String) (attrs : List (QName × String))
        (ind : Nat) (tcb trim : Bool),
      name.pfx = none → name.localName = "escape" →
      format_node (.mk i (.element name cls attrs) .nil) ind tcb trim = .error .escapeNotText) ∧
    (∀ (i : Nat) (name : QName) (cls : List String) (attrs : List (QName × String))
        (c : HTree) (rest : HForest) (ind : Nat) (tcb trim : Bool),
      name.pfx = none → name.localName = "escape" → (∀ s, c.val ≠ .text s) →
      format_node (.mk i (.element name cls attrs) (.cons c rest)) ind tcb trim =
        .error .escapeNotText) ∧
    (∀ (s : String) (ind : Nat),
      (∃ seg ∈ rsplit ';' s, rtrim seg ≠ "" ∧ splitFirst ':' (rtrim seg) = none) →
      styleClause ind s = .error .styleNoColon) ∧
    (∀ (l : List (QName × String)) (ind : Nat),
      (∃ a ∈ l, a.1.pfx.isSome = true) → attrsClause ind l = .error .nsAttr) ∧
    (∀ (i : Nat) (name : QName) (cls : List String) (attrs : List (QName × String))
        (cs : HForest) (ind : Nat) (tcb trim : Bool),
      name.pfx = none → ¬ name.localName = "escape" →
      (match attrs.find? (fun a => a.1.localName == "style") with
       | none => Except.ok ""
       | some a => styleClause (ind + 1) a.2) = Except.error FmtErr.styleNoColon →
      format_node (.mk i (.element name cls attrs) cs) ind tcb trim = .error .styleNoColon) ∧
    (∀ (i : Nat) (name : QName) (cls : List String) (attrs : List (QName × String))
        (cs : HForest) (ind : Nat) (tcb trim : Bool) (st : String),
      name.pfx = none → ¬ name.localName = "escape" →
      (match attrs.find? (fun a => a.1.localName == "style") with
       | none => Except.ok ""
       | some a => styleClause (ind + 1) a.2) = Except.ok st →
      attrsClause (ind + 1)
          (attrs.filter fun a => !(a.1.localName == "style") && !(a.1.localName == "class")) =
        .error .nsAttr →
      format_node (.mk i (.element name cls attrs) cs) ind tcb trim = .error .nsAttr) ∧
    (∀ (t : HTree) (ind : Nat) (tcb trim : Bool), allElText t = true →
      format_node t ind tcb trim ≠ .error .unexpectedNode) := by
  refine ⟨fun i p name cls attrs cs ind tcb trim hp => ?_,
    fun i name cls attrs ind tcb trim hp hname => ?_,
    fun i name cls attrs c rest ind tcb trim hp hname hval => ?_,
    fun s ind h => styleSegs_colon_err (rsplit ';' s) ind h,
    attrs_pfx_err,
    fun i name cls attrs cs ind tcb trim hp hn hsty =>
      format_node_style_err i name cls attrs cs ind tcb trim hp hn hsty,
    fun i name cls attrs cs ind tcb trim st hp hn hsty hattr =>
      format_node_attr_err i name cls attrs cs ind tcb trim hp hn st hsty hattr,
    format_node_not_unexp⟩
  · simp [format_node, hp]
  · simp [format_node, hp, hname, escapeEmit]
  · simp only [format_node, hp, Option.isSome_none, Bool.false_eq_true, if_false]
    rw [if_pos (by simp [hname])]
    cases hv : c.val <;> simp [escapeEmit, hv]
    exact absurd hv (hval _)

/-- Witness for C7: a prefixed tag name aborts with `nsTag`. -/
theorem C7_fatal_conditions_witness :
    format_node (.mk 1 (.element ⟨some "svg", "a"⟩ [] []) .nil) 0 false false = .error .nsTag :=
  C7_fatal_conditions.1 1 "svg" ⟨some "svg", "a"⟩ [] [] .nil 0 false false rfl

/-- Counterexample for C7 as stated: this `escape` element does NOT have
exactly one text child (a text child is followed by an element child), yet
emission succeeds — only the first child's text is copied. -/
theorem C7_fatal_conditions_counterexample :
    format_node (.mk 1 (.element ⟨none, "escape"⟩ [] [])
        (.cons (.mk 2 (.text "a") .nil)
          (.cons (.mk 3 (.element ⟨none, "b"⟩ [] []) .nil) .nil))) 0 false false = .ok "a\n" := by
  decide

/-- Permuting a list does not change `contains`. -/
theorem perm_contains {l l' : List Nat} (h : l.Perm l') (x : Nat) :
    l.contains x = l'.contains x := by
  by_cases hx : x ∈ l
  · have h1 : l.contains x = true := by simpa using hx
    have h2 : l'.contains x = true := by simpa using h.mem_iff.mp hx
    rw [h1, h2]
  · have h1 : l.contains x = false := by simpa using hx
    have h2 : l'.contains x = false := by simpa using fun hc => hx (h.mem_iff.mpr hc)
    rw [h1, h2]

/-- Detaching preserves the id of the node it is applied to. -/
theorem detachOne_id (i : Nat) (t : HTree) : (detachOne i t).id = t.id := by
  cases t
  rfl

mutual
/-- Detaching the empty id set is the identity. -/
theorem detachMany_nil : ∀ (t : HTree), detachMany [] t = t
  | .mk j v cs => by
    simp only [detachMany]
    rw [detachManyF_nil cs]
/-- Forest part of `detachMany_nil`. -/
theorem detachManyF_nil : ∀ (f : HForest), detachManyF [] f = f
  | .nil => rfl
  | .cons c rest => by
    simp only [detachManyF]
    rw [if_neg (by simp)]
    rw [detachMany_nil c, detachManyF_nil rest]
end

mutual
/-- Simultaneous removal peels off one detach at a time. -/
theorem detachMany_cons (i : Nat) (l : List Nat) : ∀ (t : HTree),
    detachMany (i :: l) t = detachMany l (detachOne i t)
  | .mk j v cs => by
    simp only [detachMany, detachOne]
    rw [detachManyF_cons i l cs]
/-- Forest part of `detachMany_cons`. -/
theorem detachManyF_cons (i : Nat) (l : List Nat) : ∀ (f : HForest),
    detachManyF (i :: l) f = detachManyF l (detachOneF i f)
  | .nil => rfl
  | .cons c rest => by
    simp only [detachManyF, detachOneF]
    by_cases hci : (c.id == i) = true
    · have hmem : ((i :: l).contains c.id) = true := by
        simp only [List.contains_cons]
        rw [hci]
        rfl
      rw [if_pos hmem, if_pos hci]
      exact detachManyF_cons i l rest
    · have hcif : (c.id == i) = false := by simpa using hci
      have hmem : ((i :: l).contains c.id) = l.contains c.id := by
        simp only [List.contains_cons, hcif, Bool.false_or]
      rw [hmem, if_neg hci]
      simp only [detachManyF, detachOne_id]
      by_cases hmem2 : l.contains c.id = true
      · rw [if_pos hmem2, if_pos hmem2]
        exact detachManyF_cons i l rest
      · rw [if_neg hmem2, if_neg hmem2]
        rw [detachMany_cons i l c, detachManyF_cons i l rest]
end

/-- The sequential detach loop equals simultaneous removal of the whole id
list — hence only the SET of ids matters, not the iteration order. -/
theorem detachList_eq_detachMany : ∀ (l : List Nat) (t : HTree),
    detachList l t = detachMany l t
  | [], t => (detachMany_nil t).symm
  | i :: l, t => by
    show detachList l (detachOne i t) = detachMany (i :: l) t
    rw [detachList_eq_detachMany l (detachOne i t), detachMany_cons]

mutual
/-- Simultaneous removal only depends on id membership. -/
theorem detachMany_congr (S S' : List Nat) (hS : ∀ x, S.contains x = S'.contains x) :
    ∀ (t : HTree), detachMany S t = detachMany S' t
  | .mk j v cs => by
    simp only [detachMany]
    rw [detachManyF_congr S S' hS cs]
/-- Forest part of `detachMany_congr`. -/
theorem detachManyF_congr (S S' : List Nat) (hS : ∀ x, S.contains x = S'.contains x) :
    ∀ (f : HForest), detachManyF S f = detachManyF S' f
  | .nil => rfl
  | .cons c rest => by
    simp only [detachManyF]
    rw [hS c.id]
    by_cases hm : S'.contains c.id = true
    · rw [if_pos hm, if_pos hm]
      exact detachManyF_congr S S' hS rest
    · rw [if_neg hm, if_neg hm]
      rw [detachMany_congr S S' hS c, detachManyF_congr S S' hS rest]
end

/-- C10: HTML emission is deterministic — although both normalization
passes iterate a `HashSet` of node ids in unspecified order when
detaching, any two iteration orders of the same id sets produce identical
output text from `from_str` + `as_html`. -/
theorem C10_deterministic (p : ParsedHtml) (trim : Bool) (o1 o1' o2 o2' : List Nat)
    (h1 : o1.Perm o1') (h2 : o2.Perm o2') :
    runWith p trim o1 o2 = runWith p trim o1' o2' := by
  have e1 : detachList o1 p.tree = detachList o1' p.tree := by
    rw [detachList_eq_detachMany, detachList_eq_detachMany]
    exact detachMany_congr o1 o1' (perm_contains h1) p.tree
  have e2 : detachList o2 (detachList o1' p.tree) = detachList o2' (detachList o1' p.tree) := by
    rw [detachList_eq_detachMany o2, detachList_eq_detachMany o2']
    exact detachMany_congr o2 o2' (perm_contains h2) _
  simp only [runWith]
  rw [e1, e2]

/-- Witness for C10: the two pass-1 ids detached in either order give the
same output on a concrete document. -/
theorem C10_deterministic_witness :
    (([2, 3] : List Nat).Perm [3, 2]) ∧
    runWith ⟨[], .mk 0 .fragment (.cons (.mk 1 (.element ⟨none, "html"⟩ [] [])
        (.cons (.mk 2 (.comment "a") .nil)
          (.cons (.mk 3 (.doctype "d") .nil)
            (.cons (.mk 4 (.text "x") .nil) .nil)))) .nil)⟩ false [2, 3] [] =
      runWith ⟨[], .mk 0 .fragment (.cons (.mk 1 (.element ⟨none, "html"⟩ [] [])
        (.cons (.mk 2 (.comment "a") .nil)
          (.cons (.mk 3 (.doctype "d") .nil)
            (.cons (.mk 4 (.text "x") .nil) .nil)))) .nil)⟩ false [3, 2] [] :=
  ⟨List.Perm.swap 3 2 [],
   C10_deterministic _ false [2, 3] [3, 2] [] [] (List.Perm.swap 3 2 []) (List.Perm.refl [])⟩

mutual
/-- After pass 1 (all collected ids removed, possibly along with extra
ids), a text-leaf tree rooted at an element-or-text node consists only of
element and text nodes. -/
theorem pass1_elText (t : HTree) (S : List Nat) (htl : textLeaves t = true)
    (hval : elOrText t.val = true)
    (hsub : ∀ x ∈ collect1 t, S.contains x = true) :
    allElText (detachMany S t) = true := by
  cases t with
  | mk i v cs =>
    have hforest : textLeavesF cs = true :=
      ((Bool.and_eq_true _ _).mp (by simpa [textLeaves] using htl)).2
    simp only [detachMany, allElText, Bool.and_eq_true]
    exact ⟨hval, pass1F_elText cs S hforest (by simpa [collect1] using hsub)⟩
termination_by sizeOf t

/-- Forest part of `pass1_elText`. -/
theorem pass1F_elText (f : HForest) (S : List Nat) (htl : textLeavesF f = true)
    (hsub : ∀ x ∈ collect1F f, S.contains x = true) :
    allElTextF (detachManyF S f) = true := by
  cases f with
  | nil => rfl
  | cons c rest =>
    have hc : textLeaves c = true :=
      ((Bool.and_eq_true _ _).mp (by simpa [textLeavesF] using htl)).1
    have hrest : textLeavesF rest = true :=
      ((Bool.and_eq_true _ _).mp (by simpa [textLeavesF] using htl)).2
    have hsubrest : ∀ x ∈ collect1F rest, S.contains x = true := by
      intro x hx
      apply hsub
      simp only [collect1F]
      exact List.mem_append_right _ hx
    simp only [detachManyF]
    by_cases hmem : S.contains c.id = true
    · rw [if_pos hmem]
      exact pass1F_elText rest S hrest hsubrest
    · rw [if_neg hmem]
      simp only [allElTextF, Bool.and_eq_true]
      refine ⟨?_, pass1F_elText rest S hrest hsubrest⟩
      cases c with
      | mk ci cv ccs =>
        cases cv with
        | element name cls attrs =>
          apply pass1_elText (.mk ci (.element name cls attrs) ccs) S hc (by simp [HTree.val, elOrText])
          intro x hx
          apply hsub
          simp only [collect1F, HTree.val]
          exact List.mem_append_left _ hx
        | text s =>
          have hnil : isNilF ccs = true := by
            have := (Bool.and_eq_true _ _).mp (by simpa [textLeaves] using hc)
            simpa using this.1
          cases ccs with
          | nil => simp [detachMany, detachManyF, allElText, allElTextF, elOrText, HTree.val]
          | cons _ _ => simp [isNilF] at hnil
        | document =>
          exact absurd (hsub ci (by simp [collect1F, HTree.val, HTree.id])) hmem
        | fragment =>
          exact absurd (hsub ci (by simp [collect1F, HTree.val, HTree.id])) hmem
        | doctype s =>
          exact absurd (hsub ci (by simp [collect1F, HTree.val, HTree.id])) hmem
        | comment s =>
          exact absurd (hsub ci (by simp [collect1F, HTree.val, HTree.id])) hmem
        | procInst s =>
          exact absurd (hsub ci (by simp [collect1F, HTree.val, HTree.id])) hmem
termination_by sizeOf f
end

/-- The first child of an element/text-only forest is element/text-only. -/
theorem allElTextF_first {f : HForest} {c : HTree} (h : allElTextF f = true)
    (hc : firstChild f = some c) : allElText c = true := by
  cases f with
  | nil => cases hc
  | cons c0 rest =>
    cases hc
    exact ((Bool.and_eq_true _ _).mp (by simpa [allElTextF] using h)).1

/-- The last child of an element/text-only forest is element/text-only. -/
theorem allElTextF_last : ∀ {f : HForest} {c : HTree}, allElTextF f = true →
    lastChild f = some c → allElText c = true
  | .nil, _, _, hc => by cases hc
  | .cons c0 .nil, c, h, hc => by
    cases hc
    simpa [allElTextF] using h
  | .cons c0 (.cons d rest), c, h, hc => by
    have hrest : allElTextF (.cons d rest) = true :=
      ((Bool.and_eq_true _ _).mp (by simpa [allElTextF] using h)).2
    exact allElTextF_last hrest hc

/-- The pass-2 edge check never panics on an element or text child. -/
theorem edge2_some {c : HTree} (h : allElText c = true) : (edge2 c).isSome = true := by
  cases c with
  | mk i v cs =>
    cases v <;> simp_all [edge2, allElText, elOrText, HTree.val]

mutual
/-- Pass 2 never reaches its `unreachable!` branch on an element/text-only
tree. -/
theorem collect2_some (t : HTree) (h : allElText t = true) :
    (collect2 t).isSome = true := by
  cases t with
  | mk i v cs =>
    have hf : allElTextF cs = true :=
      ((Bool.and_eq_true _ _).mp (by simpa [allElText] using h)).2
    simp only [collect2]
    have hedge1 : ∃ a, (match firstChild cs with
        | none => some ([] : List Nat)
        | some c => edge2 c) = some a := by
      cases hfc : firstChild cs with
      | none => exact ⟨[], rfl⟩
      | some c => exact Option.isSome_iff_exists.mp (edge2_some (allElTextF_first hf hfc))
    obtain ⟨a, ha⟩ := hedge1
    rw [ha]
    have hedge2 : ∃ b, (match lastChild cs with
        | none => some ([] : List Nat)
        | some c => edge2 c) = some b := by
      cases hlc : lastChild cs with
      | none => exact ⟨[], rfl⟩
      | some c => exact Option.isSome_iff_exists.mp (edge2_some (allElTextF_last hf hlc))
    obtain ⟨b, hb⟩ := hedge2
    rw [hb]
    cases hcf : collect2F cs with
    | none => exact absurd (collect2F_some cs hf) (by simp [hcf])
    | some r => simp
termination_by sizeOf t

/-- Forest part of `collect2_some`. -/
theorem collect2F_some (f : HForest) (h : allElTextF f = true) :
    (collect2F f).isSome = true := by
  cases f with
  | nil => rfl
  | cons c rest =>
    have hparts := (Bool.and_eq_true _ _).mp (by simpa [allElTextF] using h)
    simp only [collect2F]
    cases hcc : collect2 c with
    | none => exact absurd (collect2_some c hparts.1) (by simp [hcc])
    | some x =>
      cases hcr : collect2F rest with
      | none => exact absurd (collect2F_some rest hparts.2) (by simp [hcr])
      | some y => simp
termination_by sizeOf f
end

/-- C8: after pass 1 (`trim_non_el_text`), every node of the normalized
subtree below the synthetic root is an element or a text node (given the
parser-guaranteed shape: the root's child is an element and text nodes are
leaves); consequently pass 2 (`trim_insignificant`) never reaches its
`unreachable!` branch on such a tree, and neither does the formatter
(`format_node_not_unexp`, used by claim C7, follows from the same
invariant). -/
theorem C8_normalization (h : HTree) (htl : textLeaves h = true)
    (hel : elOrText h.val = true) :
    allElText (detachList (collect1 h) h) = true ∧
    (collect2 (detachList (collect1 h) h)).isSome = true := by
  rw [detachList_eq_detachMany]
  have h1 : allElText (detachMany (collect1 h) h) = true :=
    pass1_elText h (collect1 h) htl hel fun x hx => List.elem_iff.mpr hx
  exact ⟨h1, collect2_some _ h1⟩

/-- Witness for C8: a tree containing a comment and a doctype is pruned by
pass 1 to elements and text only, and pass 2 does not panic on it. -/
theorem C8_normalization_witness :
    textLeaves (.mk 1 (.element ⟨none, "html"⟩ [] [])
        (.cons (.mk 2 (.comment "a") .nil)
          (.cons (.mk 3 (.element ⟨none, "div"⟩ [] [])
            (.cons (.mk 4 (.doctype "d") .nil) (.cons (.mk 5 (.text "x") .nil) .nil)))
            .nil))) = true ∧
    allElText (detachList (collect1 (.mk 1 (.element ⟨none, "html"⟩ [] [])
        (.cons (.mk 2 (.comment "a") .nil)
          (.cons (.mk 3 (.element ⟨none, "div"⟩ [] [])
            (.cons (.mk 4 (.doctype "d") .nil) (.cons (.mk 5 (.text "x") .nil) .nil)))
            .nil))))
      (.mk 1 (.element ⟨none, "html"⟩ [] [])
        (.cons (.mk 2 (.comment "a") .nil)
          (.cons (.mk 3 (.element ⟨none, "div"⟩ [] [])
            (.cons (.mk 4 (.doctype "d") .nil) (.cons (.mk 5 (.text "x") .nil) .nil)))
            .nil)))) = true :=
  ⟨by decide,
   (C8_normalization (.mk 1 (.element ⟨none, "html"⟩ [] [])
      (.cons (.mk 2 (.comment "a") .nil)
        (.cons (.mk 3 (.element ⟨none, "div"⟩ [] [])
          (.cons (.mk 4 (.doctype "d") .nil) (.cons (.mk 5 (.text "x") .nil) .nil)))
          .nil))) (by decide) (by decide)).1⟩

/-- Running the event loop over an appended stream. -/
theorem runMd_append : ∀ (l1 l2 : List MdEvent) (n : Nat),
    runMd n (l1 ++ l2) =
      (match runMd n l1 with
       | none => none
       | some (n', s) =>
         match runMd n' l2 with
         | none => none
         | some (n'', out) => some (n'', s ++ out))
  | [], l2, n => by
    cases h : runMd n l2 with
    | none => simp [runMd, h]
    | some p =>
      cases p with
      | mk a b => simp [runMd, h]
  | e :: l1, l2, n => by
    cases hs : stepEvent n e with
    | none => simp [runMd, hs]
    | some p =>
      cases p with
      | mk n' s =>
        simp only [List.cons_append, runMd, hs, List.append_eq]
        rw [runMd_append l1 l2 n']
        cases h1 : runMd n' l1 with
        | none => rfl
        | some q =>
          cases q with
          | mk n'' out =>
            simp only [h1]
            cases h2 : runMd n'' l2 with
            | none => rfl
            | some r =>
              cases r with
              | mk n3 out2 => simp [String.append_assoc]

/-- A leaf event leaves the indent counter unchanged. -/
theorem stepEvent_leaf (e : MdEvent) (he : mdIsLeaf e = true) (n : Nat) :
    ∃ s, stepEvent n e = some (n, s) := by
  cases e with
  | start t => simp [mdIsLeaf] at he
  | end' t => simp [mdIsLeaf] at he
  | text s => exact ⟨_, rfl⟩
  | code s => exact ⟨_, rfl⟩
  | html s => exact ⟨_, rfl⟩
  | footnoteReference s => exact ⟨_, rfl⟩
  | softBreak => exact ⟨_, rfl⟩
  | hardBreak => exact ⟨_, rfl⟩
  | rule => exact ⟨_, rfl⟩
  | taskListMarker b => exact ⟨_, rfl⟩

/-- C5: on a balanced event stream the indent counter is incremented on
every `Start` and decremented on every matching `End`; every balanced
prefix returns the counter to its starting value, and no decrement ever
underflows (underflow is modelled by `runMd` returning `none`, so
`runMd c es = some (c, out)` asserts both that the counter returns to `c`
after the balanced stream and that it never went below zero on the
way). -/
theorem C5_indent_balance (es : List MdEvent) (hb : MdBalanced es) :
    ∀ c : Nat, ∃ out, runMd c es = some (c, out) := by
  induction hb with
  | nil => intro c; exact ⟨"", rfl⟩
  | leaf e l hleaf hbl ih =>
    intro c
    obtain ⟨s, hs⟩ := stepEvent_leaf e hleaf c
    obtain ⟨out, hout⟩ := ih c
    refine ⟨s ++ out, ?_⟩
    simp only [runMd, hs, hout]
  | node t inner rest hbi hbr ihi ihr =>
    intro c
    obtain ⟨oi, hoi⟩ := ihi (c + 1)
    obtain ⟨orr, hor⟩ := ihr c
    have hend : runMd (c + 1) (MdEvent.end' t :: rest) = some (c, mdEnd c t ++ orr) := by
      simp only [runMd, stepEvent, hor]
    have hmid : runMd (c + 1) (inner ++ MdEvent.end' t :: rest) =
        some (c, oi ++ (mdEnd c t ++ orr)) := by
      rw [runMd_append, hoi]
      dsimp only
      rw [hend]
    refine ⟨mdStart c t ++ (oi ++ (mdEnd c t ++ orr)), ?_⟩
    simp only [runMd, stepEvent, List.append_eq, hmid]

/-- Witness for C5: a balanced paragraph stream starts and ends at counter
0, producing the expected text. -/
theorem C5_indent_balance_witness :
    (∃ out, runMd 0 [.start .paragraph, .text "hi", .end' .paragraph] = some (0, out)) ∧
    runMd 0 [.start .paragraph, .text "hi", .end' .paragraph] =
      some (0, ".child(::dominator::html!(\"p\"), \x7b\n  .text(\"hi\")\n\x7d)\n") :=
  ⟨C5_indent_balance _
      (MdBalanced.node .paragraph [.text "hi"] []
        (MdBalanced.leaf _ _ rfl MdBalanced.nil) MdBalanced.nil) 0,
   by decide⟩

/-- C6 (amended): for the tags that emit on `Start`, the Heading,
CodeBlock, List, Item, Link and Image opening emissions are prefixed with
two spaces per current counter value, but the Paragraph and BlockQuote
opening lines are written with NO indent prefix (their emission is
independent of the counter); the matching `End` emission is the closing
line `})` at the post-decrement counter value for Paragraph, Heading,
BlockQuote, CodeBlock, List, Item and Link, while the Image `End` arm
emits nothing. -/
theorem C6_markdown_mapping (n : Nat) :
    (∀ lvl, ∃ s, mdStart n (.heading lvl) = indentStr n ++ s) ∧
    (∃ s, mdStart n .codeBlock = indentStr n ++ s) ∧
    (∀ k, ∃ s, mdStart n (.list k) = indentStr n ++ s) ∧
    (∃ s, mdStart n .item = indentStr n ++ s) ∧
    (∀ d t, ∃ s, mdStart n (.link d t) = indentStr n ++ s) ∧
    (∀ d t, ∃ s, mdStart n (.image d t) = indentStr n ++ s) ∧
    mdStart n .paragraph = mdStart 0 .paragraph ∧
    mdStart n .blockQuote = mdStart 0 .blockQuote ∧
    (∀ t : MdTag, stepEvent n (.start t) = some (n + 1, mdStart n t)) ∧
    (∀ t : MdTag, stepEvent (n + 1) (.end' t) = some (n, mdEnd n t)) ∧
    mdEnd n .paragraph = indentStr n ++ "\x7d)\n" ∧
    (∀ lvl, mdEnd n (.heading lvl) = indentStr n ++ "\x7d)\n") ∧
    mdEnd n .blockQuote = indentStr n ++ "\x7d)\n" ∧
    mdEnd n .codeBlock = indentStr n ++ "\x7d)\n" ∧
    (∀ k, mdEnd n (.list k) = indentStr n ++ "\x7d)\n") ∧
    mdEnd n .item = indentStr n ++ "\x7d)\n" ∧
    (∀ d t, mdEnd n (.link d t) = indentStr n ++ "\x7d)\n") ∧
    (∀ d t, mdEnd n (.image d t) = "") := by
  refine ⟨fun lvl => ?_, ⟨_, rfl⟩, fun k => ?_, ⟨_, rfl⟩, fun d t => ?_, fun d t => ?_,
    rfl, rfl, fun t => rfl, fun t => rfl, rfl, fun lvl => rfl, rfl, rfl, fun k => rfl,
    rfl, fun d t => rfl, fun d t => rfl⟩
  · refine ⟨".child(::dominator::html!(\"" ++ (conv_heading lvl ++ "\", \x7b\n"), ?_⟩
    simp [mdStart, String.append_assoc]
  · cases k with
    | none => exact ⟨_, rfl⟩
    | some num =>
      refine ⟨".child(::dominator::html!(\"ul\"), \x7b\n" ++ (indentStr (n + 1) ++
        (".attr(\"start\", \"" ++ (toString num ++ "\")\n"))), ?_⟩
      simp [mdStart, String.append_assoc]
  · refine ⟨".child(::dominator::html(\"a\"), \x7b\n" ++ (indentStr (n + 1) ++
      (".attr(\"html\", \"" ++ (escape_debug d ++ ("\"\n" ++ (indentStr (n + 1) ++
      (".attr(\"title\", \"" ++ (escape_debug t ++ "\"\n"))))))), ?_⟩
    simp [mdStart, String.append_assoc]
  · refine ⟨".child(::dominator::html(\"img\"), \x7b\n" ++ (indentStr (n + 1) ++
      (".attr(\"src\", \"" ++ (escape_debug d ++ ("\"\n" ++ (indentStr (n + 1) ++
      (".attr(\"title\", \"" ++ (escape_debug t ++ "\"\n"))))))), ?_⟩
    simp [mdStart, String.append_assoc]

/-- Counterexample for C6 as stated: at counter value 1 the Paragraph
opening line carries no two-space prefix (it is identical to the emission
at counter 0), and the Image `End` event emits nothing rather than a
closing `})` line. -/
theorem C6_markdown_mapping_counterexample :
    mdStart 1 .paragraph = ".child(::dominator::html!(\"p\"), \x7b\n" ∧
    mdStart 1 .paragraph ≠ indentStr 1 ++ mdStart 0 .paragraph ∧
    mdStart 1 .blockQuote ≠ indentStr 1 ++ mdStart 0 .blockQuote ∧
    mdEnd 0 (.image "u" "t") = "" ∧
    stepEvent 1 (.end' (.image "u" "t")) = some (0, "") := by
  exact ⟨by decide, by decide, by decide, by decide, by decide⟩

/-- C9 (amended): `process_dir` fails the whole run on any directory entry
(`bail!("found directory ...")` — no recursion) and on any file whose
extension is not exactly `html` (`bail!("found non-html file ...")` — so
`.htm` and `.md` files are errors, not routed anywhere, and no warning-
and-skip recovery exists); a `.html` file is routed to the HTML emitter
(`StaticDom::from_str` + `as_html`).  The Markdown emitter is never
invoked by the driver. -/
theorem C9_driver :
    (∀ (trim : Bool) (name : String) (rest : List DirEntry),
      process_dir trim (.dir name :: rest) = .error (.foundDir name)) ∧
    (∀ (trim : Bool) (name : String) (ext : Option String) (p : ParsedHtml)
        (rest : List DirEntry), ¬ ext = some "html" →
      process_dir trim (.file name ext p :: rest) = .error (.nonHtml name)) ∧
    (∀ (trim : Bool) (name : String) (p : ParsedHtml) (d : StaticDom),
      from_str p trim = .ok d →
      process_entry trim (.file name (some "html") p) =
        (match as_html d with
         | .error e => Except.error (DriverErr.emitErr name e)
         | .ok s => Except.ok s)) := by
  refine ⟨fun trim name rest => rfl, fun trim name ext p rest hne => ?_,
    fun trim name p d hok => ?_⟩
  · simp only [process_dir, process_entry]
    rw [if_neg (by simpa using hne)]
  · simp only [process_entry]
    rw [if_pos (by simp), hok]

/-- Witness for C9: a `.md` file makes the run fail with the non-html
error. -/
theorem C9_driver_witness :
    process_dir true [.file "notes" (some "md") ⟨[], .mk 0 .fragment .nil⟩] =
      .error (.nonHtml "notes") :=
  C9_driver.2.1 true "notes" (some "md") ⟨[], .mk 0 .fragment .nil⟩ [] (by decide)

/-- Counterexample for C9 as stated: a directory entry is a fatal error
(not recursed into), and `.md` and `.htm` files are fatal errors (not
routed or skipped with a warning). -/
theorem C9_driver_counterexample :
    process_dir true [.dir "sub"] = .error (.foundDir "sub") ∧
    process_dir true [.file "notes" (some "md") ⟨[], .mk 0 .fragment .nil⟩] =
      .error (.nonHtml "notes") ∧
    process_dir true [.file "page" (some "htm") ⟨[], .mk 0 .fragment .nil⟩] =
      .error (.nonHtml "page") := by
  exact ⟨by decide, by decide, by decide⟩
